import Mathlib

set_option maxRecDepth 100000

/-!
Formal model of the NetCmp netlist comparison tool (src/netcmp.py).

The Python source is shallowly embedded: Python `str` values become Lean
`String`s (with the string primitives re-implemented structurally over
`List Char` so that everything evaluates inside the kernel), Python dicts
become insertion-ordered association lists with overwrite-in-place
semantics, fallible code returns `Except PyError`, and `hashlib.md5` is a
full executable MD5 implementation over `Nat` bytes.
-/

/-! ## Python string primitives (codepoint-level, structural) -/

/-- The characters Python's `str.strip()` removes. -/
def isPySpace (c : Char) : Bool :=
  c = ' ' || c = '\t' || c = '\n' || c = '\r' || c = '\x0b' || c = '\x0c'

/-- Python `str.strip()` on a character list. -/
def pyStripList (s : List Char) : List Char :=
  ((s.dropWhile isPySpace).reverse.dropWhile isPySpace).reverse

/-- Python `str.strip()`. -/
def pyStrip (s : String) : String :=
  String.mk (pyStripList s.data)

/-- Python `str.strip("'")`: remove all leading and trailing single quotes. -/
def pyStripQuotes (s : String) : String :=
  String.mk (((s.data.dropWhile (· = '\'')).reverse.dropWhile (· = '\'')).reverse)

/-- Split a character list at every character satisfying `p`, keeping empty
chunks, as Python's `str.split` with an explicit separator does. -/
def splitChars (p : Char → Bool) : List Char → List (List Char)
  | [] => [[]]
  | c :: rest =>
    if p c then [] :: splitChars p rest
    else
      match splitChars p rest with
      | [] => [[c]]
      | g :: gs => (c :: g) :: gs

/-- Python `s.split(ch)` for a one-character separator (keeps empty parts). -/
def pySplitOnChar (s : String) (c : Char) : List String :=
  (splitChars (· = c) s.data).map String.mk

/-- Fuel-based worker for `pyReplace`; the fuel starts at the length of the
string, which suffices because every step consumes at least one character. -/
def replaceCharsAux (pat repl : List Char) : Nat → List Char → List Char
  | _, [] => []
  | 0, s => s
  | fuel + 1, c :: rest =>
    if pat.isPrefixOf (c :: rest) then
      repl ++ replaceCharsAux pat repl fuel ((c :: rest).drop pat.length)
    else
      c :: replaceCharsAux pat repl fuel rest

/-- Python `str.replace` (all non-overlapping occurrences, left to right). -/
def pyReplace (s pat repl : String) : String :=
  if pat.data.isEmpty then s
  else String.mk (replaceCharsAux pat.data repl.data s.data.length s.data)

/-- Python's substring test `sub in s`. -/
def containsSubstr (s sub : String) : Bool :=
  (List.range (s.data.length + 1)).any (fun i => sub.data.isPrefixOf (s.data.drop i))

/-- Python `s.startswith(c)` for a single-character prefix. -/
def startsWithChar (s : String) (c : Char) : Bool :=
  match s.data with
  | [] => false
  | d :: _ => d = c

/-- Modelled from the spec: Python's whitespace split `str.split()` (split on
runs of whitespace, discarding empty tokens).  Used only to state what the
spec calls "whitespace-separated tokens"; the source itself splits on every
single space character. -/
def pySplitWhitespace (s : String) : List String :=
  ((splitChars isPySpace s.data).map String.mk).filter (fun t => t ≠ "")

/-! ## Python runtime errors the source can raise -/

inductive PyError where
  | nameError (n : String)
  | attributeError (n : String)
  | indexError
  | valueError
deriving DecidableEq, Repr

/-! ## Data model (classes `Node` and `Net`) -/

structure Node where
  component : String
  pin : String
  net : String
deriving DecidableEq, Repr

structure Net where
  name : String
  full_signal_name : String
deriving DecidableEq, Repr

/-! ## Python dicts as insertion-ordered association lists -/

def containsKey {α : Type} (m : List (String × α)) (k : String) : Bool :=
  m.any (fun e => e.1 = k)

def findAssoc {α : Type} : List (String × α) → String → Option α
  | [], _ => none
  | e :: rest, k => if e.1 = k then some e.2 else findAssoc rest k

/-- Python `d[k] = v`: overwrite in place if the key is present, else append. -/
def insertAssoc {α : Type} (m : List (String × α)) (k : String) (v : α) : List (String × α) :=
  if containsKey m k then m.map (fun e => if e.1 = k then (k, v) else e) else m ++ [(k, v)]

/-- Apply `f` to the value stored under key `k` (all entries with that key). -/
def updateAssoc {α : Type} (m : List (String × α)) (k : String) (f : α → α) : List (String × α) :=
  m.map (fun e => if e.1 = k then (e.1, f e.2) else e)

/-- The two-step insertion `parse` performs: create `components[component]`
as an empty dict if absent, then `components[component][pin] = node`. -/
def insertNode (comps : List (String × List (String × Node))) (c p : String) (nd : Node) :
    List (String × List (String × Node)) :=
  let comps1 := if containsKey comps c then comps else comps ++ [(c, [])]
  updateAssoc comps1 c (fun pins => insertAssoc pins p nd)

/-! ## The parser (`NetCmp.parse`) -/

structure ParseState where
  components : List (String × List (String × Node))
  nets : List (String × Net)
deriving DecidableEq, Repr

def initState : ParseState := ⟨[], []⟩

/-- One record chunk to its lines: `item.replace("\t","\n").strip().split("\n")`,
with the leading line deleted when it starts with an opening curly brace. -/
def tokenizeItem (item : String) : List String :=
  let ls := pySplitOnChar (pyStrip (pyReplace item "\t" "\n")) '\n'
  match ls with
  | [] => []
  | l0 :: rest => if startsWithChar l0 '\x7b' then rest else ls

/-- The net-name cleanup on line index 3 of a node record:
`i[3].replace("'", "").replace(":", "").strip()`. -/
def stripNetChars (l3 : String) : String :=
  pyStrip (pyReplace (pyReplace l3 "'" "") ":" "")

/-- The full-signal-name cleanup on line index 3 of a net record:
`i[3].replace("C_SIGNAL=", "").strip().strip("'")`. -/
def stripSignalName (l3 : String) : String :=
  pyStripQuotes (pyStrip (pyReplace l3 "C_SIGNAL=" ""))

/-- Classification and handling of one tokenized record, with the Python
evaluation order of the indexing and unpacking steps (and the errors they
raise) made explicit. -/
def parseClassify (st : ParseState) (i : List String) : Except PyError ParseState :=
  match i.head? with
  | none => .error .indexError
  | some l0 =>
    if containsSubstr l0 "NODE_NAME" then
      match i[1]? with
      | none => .error .indexError
      | some l1 =>
        let parts := pySplitOnChar l1 ' '
        if parts.length = 2 then
          match i[3]? with
          | none => .error .indexError
          | some l3 =>
            let component := parts.getD 0 ""
            let pin := parts.getD 1 ""
            let net := stripNetChars l3
            .ok { st with components := insertNode st.components component pin ⟨component, pin, net⟩ }
        else .error .valueError
    else if containsSubstr l0 "NET_NAME" then
      match i[1]? with
      | none => .error .indexError
      | some l1 =>
        let name := pyStripQuotes l1
        match i[3]? with
        | none => .error .indexError
        | some l3 =>
          .ok { st with nets := insertAssoc st.nets name ⟨name, stripSignalName l3⟩ }
    else .ok st

def parseItem (st : ParseState) (item : String) : Except PyError ParseState :=
  parseClassify st (tokenizeItem item)

def parseItemsSt (st : ParseState) : List String → Except PyError ParseState
  | [] => .ok st
  | r :: rest =>
    match parseItem st r with
    | .error e => .error e
    | .ok st' => parseItemsSt st' rest

/-! ## UTF-8 and MD5 (the `hashlib.md5` collaborator), fully executable -/

def encodeCodepoint (n : Nat) : List Nat :=
  if n < 128 then [n]
  else if n < 2048 then [192 + n / 64, 128 + n % 64]
  else if n < 65536 then [224 + n / 4096, 128 + n / 64 % 64, 128 + n % 64]
  else [240 + n / 262144, 128 + n / 4096 % 64, 128 + n / 64 % 64, 128 + n % 64]

/-- Python `s.encode()`: the UTF-8 bytes of a string. -/
def utf8Bytes (s : String) : List Nat :=
  s.data.flatMap (fun c => encodeCodepoint c.toNat)

def madd (a b : Nat) : Nat := (a + b) % 4294967296

/-- Bitwise complement within 32 bits (inputs are kept below `2 ^ 32`). -/
def mnot (a : Nat) : Nat := 4294967295 - a

/-- 32-bit left rotation. -/
def rotl (x s : Nat) : Nat := x % 2 ^ (32 - s) * 2 ^ s + x / 2 ^ (32 - s)

def md5F (i b c d : Nat) : Nat :=
  if i < 16 then b &&& c ||| mnot b &&& d
  else if i < 32 then d &&& b ||| mnot d &&& c
  else if i < 48 then b ^^^ c ^^^ d
  else c ^^^ (b ||| mnot d)

def md5g (i : Nat) : Nat :=
  if i < 16 then i
  else if i < 32 then (5 * i + 1) % 16
  else if i < 48 then (3 * i + 5) % 16
  else 7 * i % 16

def md5K : List Nat :=
  [3614090360, 3905402710, 606105819, 3250441966, 4118548399, 1200080426, 2821735955, 4249261313,
   1770035416, 2336552879, 4294925233, 2304563134, 1804603682, 4254626195, 2792965006, 1236535329,
   4129170786, 3225465664, 643717713, 3921069994, 3593408605, 38016083, 3634488961, 3889429448,
   568446438, 3275163606, 4107603335, 1163531501, 2850285829, 4243563512, 1735328473, 2368359562,
   4294588738, 2272392833, 1839030562, 4259657740, 2763975236, 1272893353, 4139469664, 3200236656,
   681279174, 3936430074, 3572445317, 76029189, 3654602809, 3873151461, 530742520, 3299628645,
   4096336452, 1126891415, 2878612391, 4237533241, 1700485571, 2399980690, 4293915773, 2240044497,
   1873313359, 4264355552, 2734768916, 1309151649, 4149444226, 3174756917, 718787259, 3951481745]

def md5S : List Nat :=
  [7, 12, 17, 22, 7, 12, 17, 22, 7, 12, 17, 22, 7, 12, 17, 22,
   5, 9, 14, 20, 5, 9, 14, 20, 5, 9, 14, 20, 5, 9, 14, 20,
   4, 11, 16, 23, 4, 11, 16, 23, 4, 11, 16, 23, 4, 11, 16, 23,
   6, 10, 15, 21, 6, 10, 15, 21, 6, 10, 15, 21, 6, 10, 15, 21]

structure MD5State where
  a : Nat
  b : Nat
  c : Nat
  d : Nat
deriving DecidableEq, Repr

def md5Step (M : List Nat) (st : MD5State) (i : Nat) : MD5State :=
  let f := madd (madd (madd st.a (md5F i st.b st.c st.d)) (M.getD (md5g i) 0)) (md5K.getD i 0)
  ⟨st.d, madd st.b (rotl f (md5S.getD i 0)), st.b, st.c⟩

def md5Block (st : MD5State) (M : List Nat) : MD5State :=
  let r := (List.range 64).foldl (md5Step M) st
  ⟨madd st.a r.a, madd st.b r.b, madd st.c r.c, madd st.d r.d⟩

def bytesToWords : List Nat → List Nat
  | b0 :: b1 :: b2 :: b3 :: rest => (b0 + 256 * b1 + 65536 * b2 + 16777216 * b3) :: bytesToWords rest
  | _ => []

def wordsToBlocks : List Nat → List (List Nat)
  | w0 :: w1 :: w2 :: w3 :: w4 :: w5 :: w6 :: w7 ::
    w8 :: w9 :: w10 :: w11 :: w12 :: w13 :: w14 :: w15 :: rest =>
    [w0, w1, w2, w3, w4, w5, w6, w7, w8, w9, w10, w11, w12, w13, w14, w15] :: wordsToBlocks rest
  | _ => []

def lenBytes64 (n : Nat) : List Nat :=
  [n % 256, n / 256 % 256, n / 65536 % 256, n / 16777216 % 256,
   n / 4294967296 % 256, n / 1099511627776 % 256,
   n / 281474976710656 % 256, n / 72057594037927936 % 256]

def md5Pad (msg : List Nat) : List Nat :=
  msg ++ [128] ++ List.replicate ((119 - msg.length % 64) % 64) 0
      ++ lenBytes64 (8 * msg.length % 18446744073709551616)

def wordBytes (w : Nat) : List Nat := [w % 256, w / 256 % 256, w / 65536 % 256, w / 16777216 % 256]

def hexDigit (n : Nat) : Char :=
  if n < 10 then Char.ofNat (48 + n) else Char.ofNat (87 + n)

/-- `hashlib.md5(...).hexdigest()` of a byte sequence. -/
def md5Hex (msg : List Nat) : String :=
  let final := (wordsToBlocks (bytesToWords (md5Pad msg))).foldl md5Block
    ⟨1732584193, 4023233417, 2562383102, 271733878⟩
  String.mk (([final.a, final.b, final.c, final.d].flatMap wordBytes).flatMap
    (fun b => [hexDigit (b / 16), hexDigit (b % 16)]))

/-! ## `NetCmp._generate_hash` -/

/-- Python's `<` on strings is lexicographic comparison of codepoint
sequences; `node_list.sort()` therefore sorts by this order.  This is the
core structural lexicographic order on the character lists (kernel
computable); claim C3's theorem proves it coincides with the explicit
codepoint-lexicographic comparator `specKeyLe`. -/
def pyStrLe (s t : String) : Prop := ¬ List.lt t.data s.data

instance pyStrLeDec : DecidableRel pyStrLe := fun s t =>
  @instDecidableNot _ (List.hasDecidableLt t.data s.data)

/-- The `node_flat` dict: flatten the nested components map under keys
`"<component>.<pin>"`. -/
def node_flat (comps : List (String × List (String × Node))) : List (String × Node) :=
  comps.foldl (fun acc e => e.2.foldl
    (fun acc2 pe => insertAssoc acc2 (e.1 ++ "." ++ pe.1) pe.2) acc) []

/-- The byte sequence `_generate_hash` feeds to the hasher: the flattened
keys sorted, each immediately followed by its node's net name. -/
def hashFeed (comps : List (String × List (String × Node))) : List Nat :=
  (List.insertionSort pyStrLe ((node_flat comps).map Prod.fst)).flatMap
    (fun k => utf8Bytes k ++ utf8Bytes (((findAssoc (node_flat comps) k).map Node.net).getD ""))

def generate_hash (comps : List (String × List (String × Node))) : String :=
  md5Hex (hashFeed comps)

/-! ## The parsed design (`NetCmp` instance after `__init__`) -/

structure Design where
  components : List (String × List (String × Node))
  nets : List (String × Net)
  netlistpath : String
  hash : String
deriving DecidableEq, Repr

/-- Build a design from the already-split record chunks of a netlist file
(the text between semicolons), as `parse` does, caching the fingerprint. -/
def parseRecords (rs : List String) (path : String) : Except PyError Design :=
  match parseItemsSt initState rs with
  | .error e => .error e
  | .ok st => .ok ⟨st.components, st.nets, path, generate_hash st.components⟩

/-- `NetCmp(path)` on a file whose contents are `content`: split on every
semicolon and parse the chunks. -/
def parseDesign (content path : String) : Except PyError Design :=
  parseRecords (pySplitOnChar content ';') path

/-! ## `NetCmp.compare` -/

def natReprAux : Nat → Nat → List Char
  | 0, _ => []
  | fuel + 1, n => if n < 10 then [hexDigit n] else natReprAux fuel (n / 10) ++ [hexDigit (n % 10)]

/-- Decimal representation of a natural number (Python `"{}".format(n)`). -/
def natRepr (n : Nat) : String := String.mk (natReprAux (n + 1) n)

/-- Python `"{:03}".format(n)`. -/
def pad3 (n : Nat) : String :=
  String.mk (List.replicate (3 - (natRepr n).length) '0' ++ (natRepr n).data)

def dashesLine : String := "--------------------------------"

/-- The diff payloads `compare` emits through `report(...)`, in emission
order: A-side pass (net diffs, missing pins, missing components), then the
pass over B's components for extra components. -/
def diffPayloads (a b : Design) : List String :=
  a.components.flatMap (fun e =>
    match findAssoc b.components e.1 with
    | some bpins =>
      e.2.flatMap (fun pe =>
        match findAssoc bpins pe.1 with
        | some bnode =>
          if pe.2.net ≠ bnode.net then
            [e.1 ++ "." ++ pe.1 ++ ", NET DIFF, " ++ pe.2.net ++ ", " ++ bnode.net]
          else []
        | none => [e.1 ++ ", COMP PIN MISSING, " ++ pe.1 ++ ", NONE"])
    | none => [e.1 ++ ", COMP MISSING, " ++ e.1 ++ ", NONE"])
  ++ (b.components.map Prod.fst).filterMap (fun c =>
      if containsKey a.components c then none else some (c ++ ", EXTRA COMP, NONE, " ++ c))

/-- Prefix each payload with its three-digit zero-padded report index. -/
def numberLines : Nat → List String → List String
  | _, [] => []
  | i, s :: rest => (pad3 i ++ ", " ++ s) :: numberLines (i + 1) rest

/-- The report `compare`'s body writes (one entry per line) and the count it
returns, once the two name bugs modelled by `compareExec` are stepped over:
both header lines carry design A's cached fingerprint, exactly as lines
131-132 of the source format them. -/
def compareReport (a b : Design) : List String × Nat :=
  let pls := diffPayloads a b
  (["A: " ++ a.hash ++ ", (" ++ a.netlistpath ++ ")",
    "B: " ++ a.hash ++ ", (" ++ b.netlistpath ++ ")",
    dashesLine,
    "INDEX, REF, DIFF, A, B"]
    ++ numberLines 0 pls
    ++ [dashesLine, natRepr pls.length ++ " differences found"],
   pls.length)

/-- The names bound at module level in netcmp.py. -/
def moduleGlobalNames : List String := ["hashlib", "Node", "Net", "NetCmp"]

/-- The local names in scope when `compare` executes `open(reportpath, "w+")`:
just its parameters (`self`, `b`, `report_path`). -/
def compareLocalNames : List String := ["self", "b", "report_path"]

/-- The attributes a `NetCmp` instance actually has: instance attributes set
in `__init__` (plus `report_index`) and the methods of the class. -/
def netCmpAttrNames : List String :=
  ["nets", "components", "netlistpath", "_hash", "report_index",
   "parse", "_generate_hash", "compare", "__init__", "__hash__", "__eq__"]

/-- `compare`'s execution under Python name and attribute resolution: the
body first evaluates the name `reportpath` (raising `NameError` when it is
bound neither locally nor at module level), then calls `self.hash()` while
formatting the first header line (raising `AttributeError` when no `hash`
attribute exists), and only then produces the report. -/
def compareExec (localNames : List String) (a b : Design) : Except PyError (List String × Nat) :=
  if "reportpath" ∈ localNames ∨ "reportpath" ∈ moduleGlobalNames then
    if "hash" ∈ netCmpAttrNames then .ok (compareReport a b)
    else .error (.attributeError "hash")
  else .error (.nameError "reportpath")

/-- `a.compare(b, report_path)` as the source actually executes. -/
def NetCmp.compare (a b : Design) (report_path : String) : Except PyError (List String × Nat) :=
  compareExec compareLocalNames a b

/-- The `__main__` flow: load both designs, then compare them. -/
def mainFlow (contentA contentB pathA pathB reportPath : String) :
    Except PyError (List String × Nat) := do
  let a ← parseDesign contentA pathA
  let b ← parseDesign contentB pathB
  NetCmp.compare a b reportPath

/-- Design `b` with node `nd` stored at `components[c][p]` (modifying the
existing entry for component `c` only); used to state that B-side-only pins
never influence the report. -/
def withPinInserted (b : Design) (c p : String) (nd : Node) : Design :=
  { b with components := updateAssoc b.components c (fun pins => insertAssoc pins p nd) }

/-! ## Observation and characterization helpers -/

/-- What a successful node-record classification extracts: component, pin
and net, or `none` when the record is not a well-shaped node record. -/
def linesNode (i : List String) : Option (String × String × String) :=
  match i.head? with
  | none => none
  | some l0 =>
    if containsSubstr l0 "NODE_NAME" then
      match i[1]? with
      | none => none
      | some l1 =>
        let parts := pySplitOnChar l1 ' '
        if parts.length = 2 then
          match i[3]? with
          | none => none
          | some l3 => some (parts.getD 0 "", parts.getD 1 "", stripNetChars l3)
        else none
    else none

def itemNode (item : String) : Option (String × String × String) :=
  linesNode (tokenizeItem item)

/-- What a successful net-record classification extracts (`none` also when
the record matched `NODE_NAME` first, as the `elif` order dictates). -/
def linesNet (i : List String) : Option (String × String) :=
  match i.head? with
  | none => none
  | some l0 =>
    if containsSubstr l0 "NODE_NAME" then none
    else if containsSubstr l0 "NET_NAME" then
      match i[1]? with
      | none => none
      | some l1 =>
        match i[3]? with
        | none => none
        | some l3 => some (pyStripQuotes l1, stripSignalName l3)
    else none

def itemNet (item : String) : Option (String × String) :=
  linesNet (tokenizeItem item)

/-- The net assigned to `(c, p)` by the last record of `rs` that assigns one. -/
def lastNode (rs : List String) (c p : String) : Option String :=
  rs.foldl (fun acc r =>
    match itemNode r with
    | some (c', p', n) => if c' = c ∧ p' = p then some n else acc
    | none => acc) none

/-- The full signal name assigned to net name `nm` by the last net record. -/
def lastNet (rs : List String) (nm : String) : Option String :=
  rs.foldl (fun acc r =>
    match itemNet r with
    | some (nm', f) => if nm' = nm then some f else acc
    | none => acc) none

/-- The node stored under `components[c][p]`. -/
def nodeAt (comps : List (String × List (String × Node))) (c p : String) : Option Node :=
  match findAssoc comps c with
  | none => none
  | some pins => findAssoc pins p

/-- The net name stored under `components[c][p]`. -/
def netAt (comps : List (String × List (String × Node))) (c p : String) : Option String :=
  (nodeAt comps c p).map Node.net

/-- Well-formedness of the components map: component keys are distinct and
so are the pin keys inside each component (true of every Python dict). -/
def WfComps (comps : List (String × List (String × Node))) : Prop :=
  (comps.map Prod.fst).Nodup ∧ ∀ e ∈ comps, (e.2.map Prod.fst).Nodup

/-- All `(component, pin, net)` associations stored in a components map. -/
def allTriples (comps : List (String × List (String × Node))) :
    List (String × String × String) :=
  comps.flatMap (fun e => e.2.map (fun pe => (e.1, pe.1, pe.2.net)))

/-- All `("<component>.<pin>", node)` pairs, in traversal order. -/
def allFlatPairs (comps : List (String × List (String × Node))) : List (String × Node) :=
  comps.flatMap (fun e => e.2.map (fun pe => (e.1 ++ "." ++ pe.1, pe.2)))

/-- The value attached to the last pair of `ps` whose key is `k`. -/
def lastVal {α : Type} (ps : List (String × α)) (k : String) : Option α :=
  ps.foldl (fun acc p => if p.1 = k then some p.2 else acc) none

/-- No two records of `rs` put different nets under the same flattened
`"<component>.<pin>"` key. -/
def noKeyConflictB (rs : List String) : Bool :=
  rs.all (fun r => rs.all (fun r' =>
    match itemNode r, itemNode r' with
    | some (c, p, n), some (c', p', n') =>
      decide (c ++ "." ++ p = c' ++ "." ++ p' → n = n')
    | _, _ => true))

/-- No two stored associations of a components map put different nets under
the same flattened key. -/
def noFlatConflictB (comps : List (String × List (String × Node))) : Bool :=
  (allTriples comps).all (fun t => (allTriples comps).all (fun t' =>
    decide (t.1 ++ "." ++ t.2.1 = t'.1 ++ "." ++ t'.2.1 → t.2.2 = t'.2.2)))

/-- The two components maps hold exactly the same (component, pin) → net
associations, as sets. -/
def sameAssocB (c1 c2 : List (String × List (String × Node))) : Bool :=
  (allTriples c1).all (fun t => decide (t ∈ allTriples c2)) &&
  (allTriples c2).all (fun t => decide (t ∈ allTriples c1))

/-! ## Spec-side canonical hash (claim C3's wording) -/

def codepoints (s : String) : List Nat := s.data.map Char.toNat

/-- Ordinary lexicographic order on codepoint sequences. -/
def lexLeN : List Nat → List Nat → Bool
  | x :: xt, y :: yt => if x < y then true else if y < x then false else lexLeN xt yt
  | [], _ => true
  | _, [] => false

/-- Modelled from the spec: "ordinary lexicographic (codepoint) order" on
strings. -/
def specKeyLe (s t : String) : Prop := lexLeN (codepoints s) (codepoints t) = true

instance : DecidableRel specKeyLe := fun _ _ => inferInstanceAs (Decidable (_ = true))

/-- Modelled from the spec: the flattened keys of the components map, one
occurrence each. -/
def specFlatKeys (comps : List (String × List (String × Node))) : List String :=
  ((allFlatPairs comps).map Prod.fst).dedup

/-- Modelled from the spec: the net name associated with flattened key `k`
(for a dict, the value of the last traversal entry carrying that key). -/
def specNetOf (comps : List (String × List (String × Node))) (k : String) : String :=
  ((lastVal (allFlatPairs comps) k).map Node.net).getD ""

/-- Modelled from the spec (§4.3 / claim C3): flatten to
`"<component>.<pin>"` keys, sort them in codepoint-lexicographic order, and
feed, for each key in order, the key then its net name, no separators. -/
def specFeed (comps : List (String × List (String × Node))) : List Nat :=
  (List.insertionSort specKeyLe (specFlatKeys comps)).flatMap
    (fun k => utf8Bytes k ++ utf8Bytes (specNetOf comps k))

deriving instance DecidableEq for Except

/-! ## Accessors for closed statements about parse results -/

def designHash : Except PyError Design → String
  | .ok d => d.hash
  | .error _ => ""

def designComps : Except PyError Design → List (String × List (String × Node))
  | .ok d => d.components
  | .error _ => []

def isOkB {ε α : Type} : Except ε α → Bool
  | .ok _ => true
  | .error _ => false

/-! # Theorems -/

/-! ## Association list lemmas -/

theorem containsKey_iff {α : Type} (m : List (String × α)) (k : String) :
    containsKey m k = true ↔ ∃ e ∈ m, e.1 = k := by
  simp [containsKey, List.any_eq_true]

theorem findAssoc_eq_none_of_not_contains {α : Type} (m : List (String × α)) (k : String)
    (h : containsKey m k = false) : findAssoc m k = none := by
  induction m with
  | nil => rfl
  | cons e rest ih =>
    simp only [containsKey, List.any_cons, Bool.or_eq_false_iff, decide_eq_false_iff_not] at h
    simpa [findAssoc, h.1] using ih (by simpa [containsKey] using h.2)

theorem containsKey_of_findAssoc {α : Type} {m : List (String × α)} {k : String} {v : α}
    (h : findAssoc m k = some v) : containsKey m k = true := by
  by_contra hc
  rw [findAssoc_eq_none_of_not_contains m k (by simpa using hc)] at h
  cases h


theorem mem_of_findAssoc {α : Type} {m : List (String × α)} {k : String} {v : α}
    (h : findAssoc m k = some v) : (k, v) ∈ m := by
  induction m with
  | nil => cases h
  | cons e rest ih =>
    obtain ⟨k1, v1⟩ := e
    by_cases he : k1 = k
    · simp only [findAssoc, if_pos he] at h
      obtain rfl := he
      obtain rfl : v1 = v := by simpa using h
      exact List.mem_cons_self _ _
    · simp only [findAssoc, if_neg he] at h
      exact List.mem_cons_of_mem _ (ih h)

theorem findAssoc_isSome_of_contains {α : Type} {m : List (String × α)} {k : String}
    (h : containsKey m k = true) : ∃ v, findAssoc m k = some v := by
  induction m with
  | nil => simp [containsKey] at h
  | cons e rest ih =>
    by_cases he : e.1 = k
    · exact ⟨e.2, by simp [findAssoc, he]⟩
    · simp only [containsKey, List.any_cons, Bool.or_eq_true, decide_eq_true_eq] at h
      rcases h with h | h
      · exact absurd h he
      · simpa [findAssoc, he] using ih (by simpa [containsKey] using h)

theorem findAssoc_replaceAll {α : Type} (m : List (String × α)) (k : String) (v : α)
    (k' : String) :
    findAssoc (m.map (fun e => if e.1 = k then (k, v) else e)) k' =
      if k' = k then (if containsKey m k then some v else none) else findAssoc m k' := by
  induction m with
  | nil => by_cases hk : k' = k <;> simp [findAssoc, containsKey, hk]
  | cons e rest ih =>
    by_cases he : e.1 = k
    · by_cases hk : k' = k
      · simp [findAssoc, he, hk, containsKey]
      · have h1 : ¬ k = k' := fun h => hk h.symm
        have h2 : ¬ e.1 = k' := fun h => h1 (he.symm.trans h)
        simp [findAssoc, he, h1, h2, ih, hk]
    · by_cases hk' : e.1 = k'
      · have hne : ¬ k' = k := fun h => he (hk'.trans h)
        simp [findAssoc, he, hk', hne]
      · simp only [List.map_cons, if_neg he, findAssoc, if_neg hk', ih]
        by_cases hk : k' = k
        · simp only [hk, if_pos rfl, containsKey, List.any_cons,
            decide_eq_false he, Bool.false_or]
        · simp [hk]

theorem findAssoc_append_single {α : Type} (m : List (String × α)) (k : String) (v : α)
    (k' : String) (hc : containsKey m k = false) :
    findAssoc (m ++ [(k, v)]) k' = if k' = k then some v else findAssoc m k' := by
  induction m with
  | nil =>
    simp only [List.nil_append, findAssoc]
    by_cases hk : k' = k
    · simp [hk]
    · rw [if_neg (fun h : k = k' => hk h.symm), if_neg hk]
  | cons e rest ih =>
    simp only [containsKey, List.any_cons, Bool.or_eq_false_iff,
      decide_eq_false_iff_not] at hc
    simp only [List.cons_append, findAssoc]
    by_cases hk' : e.1 = k'
    · have hne : ¬ k' = k := fun h => hc.1 (hk'.trans h)
      simp [hk', hne]
    · simp only [if_neg hk']
      exact ih (by simpa [containsKey] using hc.2)

theorem findAssoc_insertAssoc {α : Type} (m : List (String × α)) (k : String) (v : α)
    (k' : String) :
    findAssoc (insertAssoc m k v) k' = if k' = k then some v else findAssoc m k' := by
  unfold insertAssoc
  by_cases hc : containsKey m k
  · rw [if_pos hc, findAssoc_replaceAll, if_pos hc]
  · rw [if_neg hc, findAssoc_append_single m k v k' (by simpa using hc)]

theorem keys_replaceAll {α : Type} (m : List (String × α)) (k : String) (v : α) :
    (m.map (fun e => if e.1 = k then (k, v) else e)).map Prod.fst = m.map Prod.fst := by
  rw [List.map_map]
  apply List.map_congr_left
  intro e _
  by_cases he : e.1 = k
  · simp [he]
  · simp [he]

theorem not_mem_keys_of_not_contains {α : Type} {m : List (String × α)} {k : String}
    (h : containsKey m k = false) : k ∉ m.map Prod.fst := by
  intro hk
  rcases List.mem_map.1 hk with ⟨e, he, hfst⟩
  have : containsKey m k = true := (containsKey_iff m k).2 ⟨e, he, hfst⟩
  rw [h] at this
  cases this

theorem keys_insertAssoc {α : Type} (m : List (String × α)) (k : String) (v : α) :
    (insertAssoc m k v).map Prod.fst =
      if containsKey m k then m.map Prod.fst else m.map Prod.fst ++ [k] := by
  unfold insertAssoc
  by_cases hc : containsKey m k
  · rw [if_pos hc, if_pos hc, keys_replaceAll]
  · rw [if_neg hc, if_neg hc, List.map_append]
    rfl

theorem nodup_keys_insertAssoc {α : Type} (m : List (String × α)) (k : String) (v : α)
    (h : (m.map Prod.fst).Nodup) : ((insertAssoc m k v).map Prod.fst).Nodup := by
  rw [keys_insertAssoc]
  by_cases hc : containsKey m k
  · simpa [hc] using h
  · rw [if_neg hc]
    refine List.nodup_append.2 ⟨h, List.nodup_singleton k, ?_⟩
    intro x hx hk
    obtain rfl : x = k := by simpa using hk
    exact not_mem_keys_of_not_contains (by simpa using hc) hx

theorem mem_keys_insertAssoc {α : Type} (m : List (String × α)) (k : String) (v : α)
    (x : String) : x ∈ (insertAssoc m k v).map Prod.fst ↔ x ∈ m.map Prod.fst ∨ x = k := by
  rw [keys_insertAssoc]
  by_cases hc : containsKey m k
  · rw [if_pos hc]
    constructor
    · exact fun h => Or.inl h
    · rintro (h | rfl)
      · exact h
      · rcases (containsKey_iff m x).1 hc with ⟨e, he, hfst⟩
        exact List.mem_map.2 ⟨e, he, hfst⟩
  · rw [if_neg hc]
    simp [List.mem_append]

theorem findAssoc_updateAssoc {α : Type} (m : List (String × α)) (k : String) (f : α → α)
    (k' : String) :
    findAssoc (updateAssoc m k f) k' =
      if k' = k then (findAssoc m k).map f else findAssoc m k' := by
  induction m with
  | nil => by_cases hk : k' = k <;> simp [updateAssoc, findAssoc, hk]
  | cons e rest ih =>
    by_cases he : e.1 = k
    · by_cases hk : k' = k
      · subst hk
        simp [updateAssoc, findAssoc, he]
      · have h2 : ¬ e.1 = k' := fun h => hk ((h.symm.trans he))
        simp only [updateAssoc, List.map_cons, if_pos he, findAssoc, if_neg h2, if_neg hk]
        simpa [updateAssoc, if_neg hk] using ih
    · by_cases hk' : e.1 = k'
      · have hne : ¬ k' = k := fun h => he (hk'.trans h)
        simp [updateAssoc, findAssoc, he, hk', hne]
      · simp only [updateAssoc, List.map_cons, if_neg he, findAssoc, if_neg hk']
        simpa [updateAssoc] using ih

theorem keys_updateAssoc {α : Type} (m : List (String × α)) (k : String) (f : α → α) :
    (updateAssoc m k f).map Prod.fst = m.map Prod.fst := by
  unfold updateAssoc
  rw [List.map_map]
  apply List.map_congr_left
  intro e _
  by_cases he : e.1 = k
  · simp [he]
  · simp [he]

theorem findAssoc_insertNode (comps : List (String × List (String × Node))) (c p : String)
    (nd : Node) (c' : String) :
    findAssoc (insertNode comps c p nd) c' =
      if c' = c then some (insertAssoc ((findAssoc comps c).getD []) p nd)
      else findAssoc comps c' := by
  unfold insertNode
  by_cases hc : containsKey comps c
  · simp only [if_pos hc]
    rw [findAssoc_updateAssoc]
    by_cases h' : c' = c
    · subst h'
      rcases findAssoc_isSome_of_contains hc with ⟨pins, hp⟩
      simp [hp]
    · simp [h']
  · simp only [if_neg hc]
    rw [findAssoc_updateAssoc]
    by_cases h' : c' = c
    · subst h'
      rw [if_pos rfl, if_pos rfl, findAssoc_append_single comps c' [] c' (by simpa using hc),
        findAssoc_eq_none_of_not_contains comps c' (by simpa using hc)]
      simp
    · rw [if_neg h', if_neg h',
        findAssoc_append_single comps c [] c' (by simpa using hc), if_neg h']

theorem nodeAt_insertNode (comps : List (String × List (String × Node))) (c p : String)
    (nd : Node) (c' p' : String) :
    nodeAt (insertNode comps c p nd) c' p' =
      if c' = c ∧ p' = p then some nd else nodeAt comps c' p' := by
  unfold nodeAt
  rw [findAssoc_insertNode]
  by_cases hc : c' = c
  · rw [if_pos hc]
    show findAssoc (insertAssoc ((findAssoc comps c).getD []) p nd) p' = _
    rw [findAssoc_insertAssoc]
    by_cases hp : p' = p
    · simp [hc, hp]
    · rw [if_neg hp, if_neg (by simp [hp])]
      subst hc
      cases hfc : findAssoc comps c' with
      | none => rfl
      | some pins => rfl
  · rw [if_neg hc, if_neg (by simp [hc])]

theorem findAssoc_of_mem_nodup {α : Type} {m : List (String × α)}
    (hnd : (m.map Prod.fst).Nodup) {k : String} {v : α} (hm : (k, v) ∈ m) :
    findAssoc m k = some v := by
  induction m with
  | nil => cases hm
  | cons e rest ih =>
    rw [List.map_cons, List.nodup_cons] at hnd
    rcases List.mem_cons.1 hm with rfl | hm'
    · simp [findAssoc]
    · by_cases he : e.1 = k
      · exfalso
        have : k ∈ rest.map Prod.fst := List.mem_map.2 ⟨(k, v), hm', rfl⟩
        rw [← he] at this
        exact hnd.1 this
      · simp [findAssoc, he, ih hnd.2 hm']

theorem wf_insertNode (comps : List (String × List (String × Node))) (c p : String)
    (nd : Node) (h : WfComps comps) : WfComps (insertNode comps c p nd) := by
  obtain ⟨h1, h2⟩ := h
  constructor
  · show ((updateAssoc (if containsKey comps c then comps else comps ++ [(c, [])]) c
      (fun pins => insertAssoc pins p nd)).map Prod.fst).Nodup
    rw [keys_updateAssoc]
    by_cases hc : containsKey comps c
    · simpa [hc] using h1
    · rw [if_neg hc, List.map_append]
      refine List.nodup_append.2 ⟨h1, List.nodup_singleton c, ?_⟩
      intro x hx hc'
      obtain rfl : x = c := by simpa using hc'
      exact not_mem_keys_of_not_contains (by simpa using hc) hx
  · intro e he
    have he' : e ∈ updateAssoc (if containsKey comps c then comps else comps ++ [(c, [])]) c
        (fun pins => insertAssoc pins p nd) := he
    rcases List.mem_map.1 he' with ⟨orig, horig, hfe⟩
    have hpins : (orig.2.map Prod.fst).Nodup := by
      by_cases hc : containsKey comps c
      · rw [if_pos hc] at horig
        exact h2 orig horig
      · rw [if_neg hc] at horig
        rcases List.mem_append.1 horig with hor | hor
        · exact h2 orig hor
        · obtain rfl : orig = (c, []) := by simpa using hor
          simp
    by_cases ho : orig.1 = c
    · rw [if_pos ho] at hfe
      rw [← hfe]
      exact nodup_keys_insertAssoc orig.2 p nd hpins
    · rw [if_neg ho] at hfe
      rw [← hfe]
      exact hpins

theorem parseClassify_ok_cases (st : ParseState) (i : List String) (st' : ParseState)
    (h : parseClassify st i = .ok st') :
    (∃ c p n, linesNode i = some (c, p, n) ∧ linesNet i = none ∧
        st' = { st with components := insertNode st.components c p ⟨c, p, n⟩ }) ∨
    (∃ nm f, linesNet i = some (nm, f) ∧ linesNode i = none ∧
        st' = { st with nets := insertAssoc st.nets nm ⟨nm, f⟩ }) ∨
    (linesNode i = none ∧ linesNet i = none ∧ st' = st) := by
  unfold parseClassify at h
  cases hh : i.head? with
  | none =>
    rw [hh] at h
    cases h
  | some l0 =>
    rw [hh] at h
    simp only at h
    by_cases h0 : containsSubstr l0 "NODE_NAME"
    · rw [if_pos h0] at h
      cases h1 : i[1]? with
      | none =>
        rw [h1] at h
        cases h
      | some l1 =>
        rw [h1] at h
        simp only at h
        by_cases h2 : (pySplitOnChar l1 ' ').length = 2
        · rw [if_pos h2] at h
          cases h3 : i[3]? with
          | none =>
            rw [h3] at h
            cases h
          | some l3 =>
            rw [h3] at h
            simp only [Except.ok.injEq] at h
            refine Or.inl ⟨(pySplitOnChar l1 ' ').getD 0 "", (pySplitOnChar l1 ' ').getD 1 "",
              stripNetChars l3, ?_, ?_, h.symm⟩
            · simp [linesNode, hh, h0, h1, h2, h3]
            · simp [linesNet, hh, h0]
        · rw [if_neg h2] at h
          cases h
    · rw [if_neg h0] at h
      by_cases h4 : containsSubstr l0 "NET_NAME"
      · rw [if_pos h4] at h
        cases h1 : i[1]? with
        | none =>
          rw [h1] at h
          cases h
        | some l1 =>
          rw [h1] at h
          simp only at h
          cases h3 : i[3]? with
          | none =>
            rw [h3] at h
            cases h
          | some l3 =>
            rw [h3] at h
            simp only [Except.ok.injEq] at h
            refine Or.inr (Or.inl ⟨pyStripQuotes l1, stripSignalName l3, ?_, ?_, h.symm⟩)
            · simp [linesNet, hh, h0, h4, h1, h3]
            · simp [linesNode, hh, h0]
      · rw [if_neg h4] at h
        simp only [Except.ok.injEq] at h
        refine Or.inr (Or.inr ⟨?_, ?_, h.symm⟩)
        · simp [linesNode, hh, h0]
        · simp [linesNet, hh, h0, h4]

theorem foldl_lastNode (c p : String) (rs : List String) :
    ∀ init : Option String,
      rs.foldl (fun acc r =>
        match itemNode r with
        | some (c', p', n) => if c' = c ∧ p' = p then some n else acc
        | none => acc) init =
      match lastNode rs c p with
      | some n => some n
      | none => init := by
  induction rs with
  | nil =>
    intro init
    simp [lastNode]
  | cons r rest ih =>
    intro init
    rw [List.foldl_cons, ih]
    have hr : lastNode (r :: rest) c p =
        match lastNode rest c p with
        | some n => some n
        | none =>
          match itemNode r with
          | some (c', p', n) => if c' = c ∧ p' = p then some n else none
          | none => none := by
      unfold lastNode
      rw [List.foldl_cons]
      exact ih _
    rw [hr]
    cases hln : lastNode rest c p with
    | some n => rfl
    | none =>
      cases hit : itemNode r with
      | none => rfl
      | some t =>
        obtain ⟨c', p', n'⟩ := t
        by_cases hcp : c' = c ∧ p' = p <;> simp [hcp]

theorem lastNode_cons (r : String) (rest : List String) (c p : String) :
    lastNode (r :: rest) c p =
      match lastNode rest c p with
      | some n => some n
      | none =>
        match itemNode r with
        | some (c', p', n) => if c' = c ∧ p' = p then some n else none
        | none => none := by
  unfold lastNode
  rw [List.foldl_cons]
  exact foldl_lastNode c p rest _

theorem foldl_lastNet (nm : String) (rs : List String) :
    ∀ init : Option String,
      rs.foldl (fun acc r =>
        match itemNet r with
        | some (nm', f) => if nm' = nm then some f else acc
        | none => acc) init =
      match lastNet rs nm with
      | some f => some f
      | none => init := by
  induction rs with
  | nil =>
    intro init
    simp [lastNet]
  | cons r rest ih =>
    intro init
    rw [List.foldl_cons, ih]
    have hr : lastNet (r :: rest) nm =
        match lastNet rest nm with
        | some f => some f
        | none =>
          match itemNet r with
          | some (nm', f) => if nm' = nm then some f else none
          | none => none := by
      unfold lastNet
      rw [List.foldl_cons]
      exact ih _
    rw [hr]
    cases hln : lastNet rest nm with
    | some f => rfl
    | none =>
      cases hit : itemNet r with
      | none => rfl
      | some t =>
        obtain ⟨nm', f'⟩ := t
        by_cases hn : nm' = nm <;> simp [hn]

theorem lastNet_cons (r : String) (rest : List String) (nm : String) :
    lastNet (r :: rest) nm =
      match lastNet rest nm with
      | some f => some f
      | none =>
        match itemNet r with
        | some (nm', f) => if nm' = nm then some f else none
        | none => none := by
  unfold lastNet
  rw [List.foldl_cons]
  exact foldl_lastNet nm rest _

theorem parseItemsSt_nodeAt (rs : List String) :
    ∀ st st', parseItemsSt st rs = .ok st' → ∀ c p,
      nodeAt st'.components c p =
        match lastNode rs c p with
        | some n => some ⟨c, p, n⟩
        | none => nodeAt st.components c p := by
  induction rs with
  | nil =>
    intro st st' h c p
    obtain rfl : st = st' := by simpa [parseItemsSt] using h
    simp [lastNode]
  | cons r rest ih =>
    intro st st' h c p
    rw [parseItemsSt] at h
    cases hr : parseItem st r with
    | error e =>
      rw [hr] at h
      cases h
    | ok st1 =>
      rw [hr] at h
      simp only at h
      have hrec := ih st1 st' h c p
      rw [hrec, lastNode_cons]
      rcases parseClassify_ok_cases st (tokenizeItem r) st1 hr with
        ⟨c0, p0, n0, hnode, _, hst1⟩ | ⟨nm, f, _, hnode, hst1⟩ | ⟨hnode, _, hst1⟩
      · have hit : itemNode r = some (c0, p0, n0) := hnode
        cases hln : lastNode rest c p with
        | some n => rfl
        | none =>
          rw [hit, hst1]
          show nodeAt (insertNode st.components c0 p0 ⟨c0, p0, n0⟩) c p = _
          rw [nodeAt_insertNode]
          by_cases hcp : c0 = c ∧ p0 = p
          · obtain ⟨rfl, rfl⟩ := hcp
            simp
          · have hcp' : ¬ (c = c0 ∧ p = p0) := fun hx => hcp ⟨hx.1.symm, hx.2.symm⟩
            simp only [if_neg hcp']
            have : ¬ (c0 = c ∧ p0 = p) := hcp
            simp [this]
      · have hit : itemNode r = none := hnode
        cases hln : lastNode rest c p with
        | some n => rfl
        | none =>
          rw [hit, hst1]
      · have hit : itemNode r = none := hnode
        cases hln : lastNode rest c p with
        | some n => rfl
        | none =>
          rw [hit, hst1]

theorem parseItemsSt_netsAt (rs : List String) :
    ∀ st st', parseItemsSt st rs = .ok st' → ∀ nm,
      findAssoc st'.nets nm =
        match lastNet rs nm with
        | some f => some ⟨nm, f⟩
        | none => findAssoc st.nets nm := by
  induction rs with
  | nil =>
    intro st st' h nm
    obtain rfl : st = st' := by simpa [parseItemsSt] using h
    simp [lastNet]
  | cons r rest ih =>
    intro st st' h nm
    rw [parseItemsSt] at h
    cases hr : parseItem st r with
    | error e =>
      rw [hr] at h
      cases h
    | ok st1 =>
      rw [hr] at h
      simp only at h
      have hrec := ih st1 st' h nm
      rw [hrec, lastNet_cons]
      rcases parseClassify_ok_cases st (tokenizeItem r) st1 hr with
        ⟨c0, p0, n0, _, hnet, hst1⟩ | ⟨nm0, f0, hnet, _, hst1⟩ | ⟨_, hnet, hst1⟩
      · have hit : itemNet r = none := hnet
        cases hln : lastNet rest nm with
        | some f => rfl
        | none =>
          rw [hit, hst1]
      · have hit : itemNet r = some (nm0, f0) := hnet
        cases hln : lastNet rest nm with
        | some f => rfl
        | none =>
          rw [hit, hst1]
          show findAssoc (insertAssoc st.nets nm0 ⟨nm0, f0⟩) nm = _
          rw [findAssoc_insertAssoc]
          by_cases hn : nm0 = nm
          · subst hn
            simp
          · have hn' : ¬ nm = nm0 := fun hx => hn hx.symm
            simp [hn, hn']
      · have hit : itemNet r = none := hnet
        cases hln : lastNet rest nm with
        | some f => rfl
        | none =>
          rw [hit, hst1]

theorem parseItemsSt_wf (rs : List String) :
    ∀ st st', parseItemsSt st rs = .ok st' →
      WfComps st.components → (st.nets.map Prod.fst).Nodup →
      WfComps st'.components ∧ (st'.nets.map Prod.fst).Nodup := by
  induction rs with
  | nil =>
    intro st st' h hw hn
    obtain rfl : st = st' := by simpa [parseItemsSt] using h
    exact ⟨hw, hn⟩
  | cons r rest ih =>
    intro st st' h hw hn
    rw [parseItemsSt] at h
    cases hr : parseItem st r with
    | error e =>
      rw [hr] at h
      cases h
    | ok st1 =>
      rw [hr] at h
      simp only at h
      rcases parseClassify_ok_cases st (tokenizeItem r) st1 hr with
        ⟨c0, p0, n0, _, _, hst1⟩ | ⟨nm0, f0, _, _, hst1⟩ | ⟨_, _, hst1⟩
      · exact ih st1 st' h (by rw [hst1]; exact wf_insertNode _ _ _ _ hw)
          (by rw [hst1]; exact hn)
      · exact ih st1 st' h (by rw [hst1]; exact hw)
          (by rw [hst1]; exact nodup_keys_insertAssoc _ _ _ hn)
      · exact ih st1 st' h (hst1 ▸ hw) (hst1 ▸ hn)

/-! ## Flattening lemmas -/

theorem node_flat_foldl_general (comps : List (String × List (String × Node))) :
    ∀ acc,
      comps.foldl (fun acc e => e.2.foldl
          (fun acc2 pe => insertAssoc acc2 (e.1 ++ "." ++ pe.1) pe.2) acc) acc
        = (allFlatPairs comps).foldl (fun a pr => insertAssoc a pr.1 pr.2) acc := by
  induction comps with
  | nil =>
    intro acc
    rfl
  | cons e rest ih =>
    intro acc
    rw [List.foldl_cons, ih]
    have hsplit : allFlatPairs (e :: rest) =
        e.2.map (fun pe => (e.1 ++ "." ++ pe.1, pe.2)) ++ allFlatPairs rest := by
      simp [allFlatPairs]
    rw [hsplit, List.foldl_append]
    congr 1
    rw [List.foldl_map]

theorem foldl_lastVal {α : Type} (ps : List (String × α)) (k : String) :
    ∀ init : Option α,
      ps.foldl (fun acc p => if p.1 = k then some p.2 else acc) init =
        match lastVal ps k with
        | some v => some v
        | none => init := by
  induction ps with
  | nil =>
    intro init
    simp [lastVal]
  | cons pr rest ih =>
    intro init
    rw [List.foldl_cons, ih]
    have hl : lastVal (pr :: rest) k =
        match lastVal rest k with
        | some v => some v
        | none => if pr.1 = k then some pr.2 else none := by
      unfold lastVal
      rw [List.foldl_cons]
      exact ih _
    rw [hl]
    cases lastVal rest k with
    | some v => rfl
    | none => by_cases hpk : pr.1 = k <;> simp [hpk]

theorem lastVal_cons {α : Type} (pr : String × α) (rest : List (String × α)) (k : String) :
    lastVal (pr :: rest) k =
      match lastVal rest k with
      | some v => some v
      | none => if pr.1 = k then some pr.2 else none := by
  unfold lastVal
  rw [List.foldl_cons]
  exact foldl_lastVal rest k _

theorem findAssoc_foldl_insert {α : Type} (ps : List (String × α)) (k : String) :
    ∀ acc,
      findAssoc (ps.foldl (fun a pr => insertAssoc a pr.1 pr.2) acc) k =
        match lastVal ps k with
        | some v => some v
        | none => findAssoc acc k := by
  induction ps with
  | nil =>
    intro acc
    simp [lastVal]
  | cons pr rest ih =>
    intro acc
    rw [List.foldl_cons, ih, lastVal_cons]
    cases lastVal rest k with
    | some v => rfl
    | none =>
      rw [findAssoc_insertAssoc]
      by_cases hpk : pr.1 = k
      · simp [hpk]
      · have hk : ¬ k = pr.1 := fun hx => hpk hx.symm
        simp [hpk, hk]

theorem findAssoc_node_flat (comps : List (String × List (String × Node))) (k : String) :
    findAssoc (node_flat comps) k = lastVal (allFlatPairs comps) k := by
  unfold node_flat
  rw [node_flat_foldl_general, findAssoc_foldl_insert]
  cases lastVal (allFlatPairs comps) k with
  | some v => rfl
  | none => rfl

theorem mem_keys_foldl_insert {α : Type} (ps : List (String × α)) (x : String) :
    ∀ acc,
      (x ∈ (ps.foldl (fun a pr => insertAssoc a pr.1 pr.2) acc).map Prod.fst) ↔
        x ∈ acc.map Prod.fst ∨ x ∈ ps.map Prod.fst := by
  induction ps with
  | nil =>
    intro acc
    simp
  | cons pr rest ih =>
    intro acc
    rw [List.foldl_cons, ih, mem_keys_insertAssoc]
    simp only [List.map_cons, List.mem_cons]
    tauto

theorem nodup_keys_foldl_insert {α : Type} (ps : List (String × α)) :
    ∀ acc : List (String × α), (acc.map Prod.fst).Nodup →
      ((ps.foldl (fun a pr => insertAssoc a pr.1 pr.2) acc).map Prod.fst).Nodup := by
  induction ps with
  | nil =>
    intro acc h
    exact h
  | cons pr rest ih =>
    intro acc h
    rw [List.foldl_cons]
    exact ih _ (nodup_keys_insertAssoc acc pr.1 pr.2 h)

theorem nodup_keys_node_flat (comps : List (String × List (String × Node))) :
    ((node_flat comps).map Prod.fst).Nodup := by
  unfold node_flat
  rw [node_flat_foldl_general]
  exact nodup_keys_foldl_insert _ [] (by simp)

theorem mem_keys_node_flat (comps : List (String × List (String × Node))) (x : String) :
    x ∈ (node_flat comps).map Prod.fst ↔ x ∈ (allFlatPairs comps).map Prod.fst := by
  unfold node_flat
  rw [node_flat_foldl_general, mem_keys_foldl_insert]
  simp

theorem lastVal_mem {α : Type} (ps : List (String × α)) (k : String) {v : α}
    (h : lastVal ps k = some v) : (k, v) ∈ ps := by
  induction ps with
  | nil => simp [lastVal] at h
  | cons pr rest ih =>
    rw [lastVal_cons] at h
    cases hrest : lastVal rest k with
    | some v' =>
      rw [hrest] at h
      obtain rfl : v' = v := by simpa using h
      exact List.mem_cons_of_mem _ (ih hrest)
    | none =>
      rw [hrest] at h
      by_cases hpk : pr.1 = k
      · rw [if_pos hpk] at h
        obtain rfl : pr.2 = v := by simpa using h
        have : pr = (k, pr.2) := by
          rw [← hpk]
        exact this ▸ List.mem_cons_self _ _
      · rw [if_neg hpk] at h
        cases h

theorem lastVal_eq_none_iff {α : Type} (ps : List (String × α)) (k : String) :
    lastVal ps k = none ↔ k ∉ ps.map Prod.fst := by
  induction ps with
  | nil => simp [lastVal]
  | cons pr rest ih =>
    rw [lastVal_cons]
    cases hrest : lastVal rest k with
    | some v =>
      simp only [List.map_cons, List.mem_cons]
      constructor
      · intro h
        cases h
      · intro h
        exfalso
        exact h (Or.inr (List.mem_map.2 ⟨(k, v), lastVal_mem rest k hrest, rfl⟩))
    | none =>
      by_cases hpk : pr.1 = k
      · simp only [if_pos hpk, List.map_cons, List.mem_cons]
        constructor
        · intro h
          cases h
        · intro h
          exact absurd (Or.inl hpk.symm) h
      · simp only [if_neg hpk, List.map_cons, List.mem_cons]
        rw [ih] at hrest
        constructor
        · intro _ h
          rcases h with h | h
          · exact hpk h.symm
          · exact hrest h
        · intro _
          trivial

/-! ## Stored associations versus lookups -/

theorem mem_keys_iff_contains {α : Type} (m : List (String × α)) (k : String) :
    k ∈ m.map Prod.fst ↔ containsKey m k = true := by
  rw [containsKey_iff]
  constructor
  · intro h
    rcases List.mem_map.1 h with ⟨e, he, rfl⟩
    exact ⟨e, he, rfl⟩
  · rintro ⟨e, he, rfl⟩
    exact List.mem_map.2 ⟨e, he, rfl⟩

theorem netAt_of_entry (comps : List (String × List (String × Node))) (hw : WfComps comps)
    {e : String × List (String × Node)} {pe : String × Node}
    (he : e ∈ comps) (hpe : pe ∈ e.2) :
    nodeAt comps e.1 pe.1 = some pe.2 := by
  unfold nodeAt
  have h1 : findAssoc comps e.1 = some e.2 :=
    findAssoc_of_mem_nodup hw.1 (by simpa using he)
  rw [h1]
  exact findAssoc_of_mem_nodup (hw.2 e he) (by simpa using hpe)

theorem entry_of_nodeAt {comps : List (String × List (String × Node))} {c p : String}
    {nd : Node} (h : nodeAt comps c p = some nd) :
    ∃ pins, (c, pins) ∈ comps ∧ (p, nd) ∈ pins := by
  unfold nodeAt at h
  cases hfc : findAssoc comps c with
  | none =>
    rw [hfc] at h
    cases h
  | some pins =>
    rw [hfc] at h
    exact ⟨pins, mem_of_findAssoc hfc, mem_of_findAssoc h⟩

theorem mem_keys_allFlatPairs (comps : List (String × List (String × Node))) (x : String) :
    x ∈ (allFlatPairs comps).map Prod.fst ↔
      ∃ e ∈ comps, ∃ pe ∈ e.2, x = e.1 ++ "." ++ pe.1 := by
  constructor
  · intro h
    rcases List.mem_map.1 h with ⟨pr, hpr, rfl⟩
    rcases List.mem_flatMap.1 hpr with ⟨e, he, hpe⟩
    rcases List.mem_map.1 hpe with ⟨pe, hpe2, rfl⟩
    exact ⟨e, he, pe, hpe2, rfl⟩
  · rintro ⟨e, he, pe, hpe, rfl⟩
    exact List.mem_map.2 ⟨(e.1 ++ "." ++ pe.1, pe.2),
      List.mem_flatMap.2 ⟨e, he, List.mem_map.2 ⟨pe, hpe, rfl⟩⟩, rfl⟩

theorem keys_node_flat_iff_netAt (comps : List (String × List (String × Node)))
    (hw : WfComps comps) (x : String) :
    x ∈ (node_flat comps).map Prod.fst ↔
      ∃ c p n, netAt comps c p = some n ∧ x = c ++ "." ++ p := by
  rw [mem_keys_node_flat, mem_keys_allFlatPairs]
  constructor
  · rintro ⟨e, he, pe, hpe, rfl⟩
    refine ⟨e.1, pe.1, pe.2.net, ?_, rfl⟩
    unfold netAt
    rw [netAt_of_entry comps hw he hpe]
    rfl
  · rintro ⟨c, p, n, hn, rfl⟩
    unfold netAt at hn
    cases hnd : nodeAt comps c p with
    | none =>
      rw [hnd] at hn
      cases hn
    | some nd =>
      rcases entry_of_nodeAt hnd with ⟨pins, hpins, hmem⟩
      exact ⟨(c, pins), hpins, (p, nd), hmem, rfl⟩

theorem netAt_of_flat_value (comps : List (String × List (String × Node)))
    (hw : WfComps comps) {k : String} {nd : Node}
    (h : findAssoc (node_flat comps) k = some nd) :
    ∃ c p, k = c ++ "." ++ p ∧ netAt comps c p = some nd.net := by
  rw [findAssoc_node_flat] at h
  have hmem := lastVal_mem _ _ h
  rcases List.mem_flatMap.1 hmem with ⟨e, he, hpe⟩
  rcases List.mem_map.1 hpe with ⟨pe, hpe2, heq⟩
  rw [Prod.mk.injEq] at heq
  obtain ⟨hk, hnd⟩ := heq
  refine ⟨e.1, pe.1, hk.symm, ?_⟩
  unfold netAt
  rw [netAt_of_entry comps hw he hpe2, ← hnd]
  simp

/-! ## The string sort order: totality, transitivity, antisymmetry -/

theorem charToNat_inj {c d : Char} (h : c.toNat = d.toNat) : c = d := by
  rw [← Char.ofNat_toNat c, ← Char.ofNat_toNat d, h]

theorem lexLeN_total : ∀ xs ys : List Nat, lexLeN xs ys = true ∨ lexLeN ys xs = true
  | [], _ => Or.inl (by simp [lexLeN])
  | _ :: _, [] => Or.inr (by simp [lexLeN])
  | x :: xs, y :: ys => by
    rcases Nat.lt_trichotomy x y with h | h | h
    · exact Or.inl (by simp [lexLeN, h])
    · subst h
      rcases lexLeN_total xs ys with h' | h'
      · exact Or.inl (by simp [lexLeN, h'])
      · exact Or.inr (by simp [lexLeN, h'])
    · exact Or.inr (by simp [lexLeN, h])

theorem lexLeN_trans : ∀ xs ys zs : List Nat, lexLeN xs ys = true → lexLeN ys zs = true →
    lexLeN xs zs = true
  | [], _, _ => fun _ _ => by simp [lexLeN]
  | _ :: _, [], _ => by
    intro h _
    simp [lexLeN] at h
  | _ :: _, _ :: _, [] => by
    intro _ h
    simp [lexLeN] at h
  | x :: xs, y :: ys, z :: zs => by
    intro h1 h2
    simp only [lexLeN] at h1 h2 ⊢
    by_cases hxy : x < y
    · by_cases hyz : y < z
      · simp [Nat.lt_trans hxy hyz]
      · by_cases hzy : z < y
        · rw [if_neg hyz, if_pos hzy] at h2
          cases h2
        · have : y = z := Nat.le_antisymm (Nat.le_of_not_lt hzy) (Nat.le_of_not_lt hyz)
          subst this
          simp [hxy]
    · by_cases hyx : y < x
      · rw [if_neg hxy, if_pos hyx] at h1
        cases h1
      · have : x = y := Nat.le_antisymm (Nat.le_of_not_lt hyx) (Nat.le_of_not_lt hxy)
        subst this
        rw [if_neg hxy, if_neg hyx] at h1
        by_cases hxz : x < z
        · simp [hxz]
        · by_cases hzx : z < x
          · rw [if_neg hxz, if_pos hzx] at h2
            cases h2
          · have : x = z := Nat.le_antisymm (Nat.le_of_not_lt hzx) (Nat.le_of_not_lt hxz)
            subst this
            rw [if_neg hxz, if_neg hzx] at h2 ⊢
            exact lexLeN_trans xs ys zs h1 h2

theorem lexLeN_antisymm : ∀ xs ys : List Nat, lexLeN xs ys = true → lexLeN ys xs = true →
    xs = ys
  | [], [] => fun _ _ => rfl
  | [], _ :: _ => by
    intro _ h
    simp [lexLeN] at h
  | _ :: _, [] => by
    intro h _
    simp [lexLeN] at h
  | x :: xs, y :: ys => by
    intro h1 h2
    simp only [lexLeN] at h1 h2
    by_cases hxy : x < y
    · rw [if_neg (Nat.lt_asymm hxy), if_pos hxy] at h2
      cases h2
    · by_cases hyx : y < x
      · rw [if_neg hxy, if_pos hyx] at h1
        cases h1
      · have : x = y := Nat.le_antisymm (Nat.le_of_not_lt hyx) (Nat.le_of_not_lt hxy)
        subst this
        rw [if_neg hxy, if_neg hyx] at h1 h2
        rw [lexLeN_antisymm xs ys h1 h2]

theorem lexLeN_iff_not_lt : ∀ xs ys : List Char,
    (lexLeN (xs.map Char.toNat) (ys.map Char.toNat) = true ↔ ¬ List.lt ys xs)
  | [], ys => by
    constructor
    · intro _ h
      cases h
    · intro _
      simp [lexLeN]
  | x :: xs, [] => by
    constructor
    · intro h
      cases h
    · intro h
      exact absurd (List.lt.nil x xs) h
  | x :: xs, y :: ys => by
    simp only [List.map_cons, lexLeN]
    by_cases hxy : x.toNat < y.toNat
    · rw [if_pos hxy]
      constructor
      · intro _ h
        cases h with
        | head _ _ hlt => exact Nat.lt_asymm hxy hlt
        | tail h1 h2 _ => exact h2 hxy
      · intro _
        rfl
    · by_cases hyx : y.toNat < x.toNat
      · rw [if_neg hxy, if_pos hyx]
        constructor
        · intro h
          cases h
        · intro h
          exact absurd (List.lt.head ys xs hyx) h
      · have hx : x = y :=
          charToNat_inj (Nat.le_antisymm (Nat.le_of_not_lt hyx) (Nat.le_of_not_lt hxy))
        subst hx
        rw [if_neg hxy, if_neg hyx, lexLeN_iff_not_lt xs ys]
        constructor
        · intro h hlt
          cases hlt with
          | head _ _ hlt' => exact hyx hlt'
          | tail _ _ htl => exact h htl
        · intro h hlt
          exact h (List.lt.tail (fun hl => hxy hl) (fun hl => hyx hl) hlt)

theorem pyStrLe_iff_lexLeN (s t : String) :
    pyStrLe s t ↔ lexLeN (codepoints s) (codepoints t) = true :=
  (lexLeN_iff_not_lt s.data t.data).symm

instance : IsTotal String pyStrLe :=
  ⟨fun a b => by
    rcases lexLeN_total (codepoints a) (codepoints b) with h | h
    · exact Or.inl ((pyStrLe_iff_lexLeN a b).mpr h)
    · exact Or.inr ((pyStrLe_iff_lexLeN b a).mpr h)⟩

instance : IsTrans String pyStrLe :=
  ⟨fun a b c h1 h2 => (pyStrLe_iff_lexLeN a c).mpr
    (lexLeN_trans _ _ _ ((pyStrLe_iff_lexLeN a b).mp h1) ((pyStrLe_iff_lexLeN b c).mp h2))⟩

instance : IsAntisymm String pyStrLe :=
  ⟨fun a b h1 h2 => by
    have hcp : codepoints a = codepoints b :=
      lexLeN_antisymm _ _ ((pyStrLe_iff_lexLeN a b).mp h1) ((pyStrLe_iff_lexLeN b a).mp h2)
    have hdata : a.data = b.data :=
      List.map_injective_iff.2 (fun c d h => charToNat_inj h) hcp
    exact String.toList_inj.1 hdata⟩

/-! ## The central extensionality lemma for the fingerprint -/

theorem hashFeed_ext (c1 c2 : List (String × List (String × Node)))
    (hw1 : WfComps c1) (hw2 : WfComps c2)
    (hpt : ∀ c p, netAt c1 c p = netAt c2 c p)
    (hnc : ∀ c p c' p' n n', netAt c1 c p = some n → netAt c1 c' p' = some n' →
        c ++ "." ++ p = c' ++ "." ++ p' → n = n') :
    hashFeed c1 = hashFeed c2 := by
  have hmemiff : ∀ x, x ∈ (node_flat c1).map Prod.fst ↔ x ∈ (node_flat c2).map Prod.fst := by
    intro x
    rw [keys_node_flat_iff_netAt c1 hw1, keys_node_flat_iff_netAt c2 hw2]
    constructor
    · rintro ⟨c, p, n, hn, rfl⟩
      exact ⟨c, p, n, (hpt c p).symm.trans hn, rfl⟩
    · rintro ⟨c, p, n, hn, rfl⟩
      exact ⟨c, p, n, (hpt c p).trans hn, rfl⟩
  have hperm : List.Perm ((node_flat c1).map Prod.fst) ((node_flat c2).map Prod.fst) :=
    (List.perm_ext_iff_of_nodup (nodup_keys_node_flat c1) (nodup_keys_node_flat c2)).2 hmemiff
  have hsorteq : List.insertionSort pyStrLe ((node_flat c1).map Prod.fst)
      = List.insertionSort pyStrLe ((node_flat c2).map Prod.fst) := by
    refine List.eq_of_perm_of_sorted ?_ (List.sorted_insertionSort _ _)
      (List.sorted_insertionSort _ _)
    exact (List.perm_insertionSort _ _).trans (hperm.trans (List.perm_insertionSort _ _).symm)
  unfold hashFeed
  rw [hsorteq]
  apply List.flatMap_congr
  intro k hk
  have hk2 : k ∈ (node_flat c2).map Prod.fst := (List.mem_insertionSort _).1 hk
  have hk1 : k ∈ (node_flat c1).map Prod.fst := (hmemiff k).2 hk2
  obtain ⟨nd1, hnd1⟩ := findAssoc_isSome_of_contains ((mem_keys_iff_contains _ _).1 hk1)
  obtain ⟨nd2, hnd2⟩ := findAssoc_isSome_of_contains ((mem_keys_iff_contains _ _).1 hk2)
  rcases netAt_of_flat_value c1 hw1 hnd1 with ⟨cA, pA, hkA, hA⟩
  rcases netAt_of_flat_value c2 hw2 hnd2 with ⟨cB, pB, hkB, hB⟩
  have hB1 : netAt c1 cB pB = some nd2.net := (hpt cB pB).trans hB
  have hnet : nd1.net = nd2.net := hnc cA pA cB pB nd1.net nd2.net hA hB1 (hkA.symm.trans hkB)
  rw [hnd1, hnd2]
  simp [hnet]

theorem generate_hash_ext (c1 c2 : List (String × List (String × Node)))
    (hw1 : WfComps c1) (hw2 : WfComps c2)
    (hpt : ∀ c p, netAt c1 c p = netAt c2 c p)
    (hnc : ∀ c p c' p' n n', netAt c1 c p = some n → netAt c1 c' p' = some n' →
        c ++ "." ++ p = c' ++ "." ++ p' → n = n') :
    generate_hash c1 = generate_hash c2 :=
  congrArg md5Hex (hashFeed_ext c1 c2 hw1 hw2 hpt hnc)

/-! ## Record-level characterization of parse results -/

theorem lastNode_some_mem (rs : List String) (c p : String) {n : String}
    (h : lastNode rs c p = some n) : ∃ r ∈ rs, itemNode r = some (c, p, n) := by
  induction rs with
  | nil => simp [lastNode] at h
  | cons r rest ih =>
    rw [lastNode_cons] at h
    cases hrest : lastNode rest c p with
    | some n' =>
      rw [hrest] at h
      obtain rfl : n' = n := by simpa using h
      rcases ih hrest with ⟨r', hr', hit⟩
      exact ⟨r', List.mem_cons_of_mem _ hr', hit⟩
    | none =>
      rw [hrest] at h
      cases hit : itemNode r with
      | none =>
        rw [hit] at h
        cases h
      | some t =>
        obtain ⟨c', p', n'⟩ := t
        rw [hit] at h
        simp only at h
        by_cases hcp : c' = c ∧ p' = p
        · rw [if_pos hcp] at h
          obtain rfl : n' = n := by simpa using h
          obtain ⟨rfl, rfl⟩ := hcp
          exact ⟨r, List.mem_cons_self _ _, hit⟩
        · rw [if_neg hcp] at h
          cases h

theorem lastNode_isSome_of_mem {rs : List String} {r c p n : String} (hr : r ∈ rs)
    (hit : itemNode r = some (c, p, n)) : lastNode rs c p ≠ none := by
  induction rs with
  | nil => cases hr
  | cons r0 rest ih =>
    rw [lastNode_cons]
    cases hrest : lastNode rest c p with
    | some n' => simp
    | none =>
      rcases List.mem_cons.1 hr with rfl | hmem
      · rw [hit]
        simp
      · exact absurd hrest (ih hmem)

theorem noKeyConflictB_spec {rs : List String} (h : noKeyConflictB rs = true) :
    ∀ r ∈ rs, ∀ r' ∈ rs, ∀ cx px nx cy py ny, itemNode r = some (cx, px, nx) →
      itemNode r' = some (cy, py, ny) → cx ++ "." ++ px = cy ++ "." ++ py → nx = ny := by
  intro r hr r' hr' cx px nx cy py ny hx hy hkey
  unfold noKeyConflictB at h
  have h1 := (List.all_eq_true.1 h) r hr
  have h2 := (List.all_eq_true.1 h1) r' hr'
  rw [hx, hy] at h2
  exact of_decide_eq_true h2 hkey

theorem lastNode_perm (rs rs' : List String) (hperm : List.Perm rs rs')
    (hnc : noKeyConflictB rs = true) (c p : String) :
    lastNode rs c p = lastNode rs' c p := by
  cases h1 : lastNode rs c p with
  | none =>
    cases h2 : lastNode rs' c p with
    | none => rfl
    | some n =>
      exfalso
      rcases lastNode_some_mem rs' c p h2 with ⟨r, hr, hit⟩
      exact lastNode_isSome_of_mem (hperm.mem_iff.2 hr) hit h1
  | some n =>
    cases h2 : lastNode rs' c p with
    | none =>
      exfalso
      rcases lastNode_some_mem rs c p h1 with ⟨r, hr, hit⟩
      exact lastNode_isSome_of_mem (hperm.mem_iff.1 hr) hit h2
    | some n' =>
      rcases lastNode_some_mem rs c p h1 with ⟨r, hr, hit⟩
      rcases lastNode_some_mem rs' c p h2 with ⟨r', hr', hit'⟩
      rw [noKeyConflictB_spec hnc r hr r' (hperm.mem_iff.2 hr') c p n c p n' hit hit' rfl]

theorem parseRecords_ok (rs : List String) (path : String) (d : Design)
    (h : parseRecords rs path = .ok d) :
    ∃ st, parseItemsSt initState rs = .ok st ∧
      d = ⟨st.components, st.nets, path, generate_hash st.components⟩ := by
  unfold parseRecords at h
  cases hst : parseItemsSt initState rs with
  | error e =>
    rw [hst] at h
    cases h
  | ok st =>
    rw [hst] at h
    simp only [Except.ok.injEq] at h
    exact ⟨st, rfl, h.symm⟩

theorem parseRecords_hash (rs : List String) (path : String) (d : Design)
    (h : parseRecords rs path = .ok d) : d.hash = generate_hash d.components := by
  rcases parseRecords_ok rs path d h with ⟨st, _, rfl⟩
  rfl

theorem parseRecords_path (rs : List String) (path : String) (d : Design)
    (h : parseRecords rs path = .ok d) : d.netlistpath = path := by
  rcases parseRecords_ok rs path d h with ⟨st, _, rfl⟩
  rfl

theorem parseRecords_wf (rs : List String) (path : String) (d : Design)
    (h : parseRecords rs path = .ok d) :
    WfComps d.components ∧ (d.nets.map Prod.fst).Nodup := by
  rcases parseRecords_ok rs path d h with ⟨st, hst, rfl⟩
  refine parseItemsSt_wf rs initState st hst ⟨?_, ?_⟩ ?_
  · simp [initState]
  · intro e he
    simp [initState] at he
  · simp [initState]

theorem parseRecords_nodeAt (rs : List String) (path : String) (d : Design)
    (h : parseRecords rs path = .ok d) (c p : String) :
    nodeAt d.components c p = (lastNode rs c p).map (fun n => ⟨c, p, n⟩) := by
  rcases parseRecords_ok rs path d h with ⟨st, hst, rfl⟩
  have hn := parseItemsSt_nodeAt rs initState st hst c p
  show nodeAt st.components c p = _
  rw [hn]
  cases lastNode rs c p with
  | none => rfl
  | some n => rfl

theorem parseRecords_netAt (rs : List String) (path : String) (d : Design)
    (h : parseRecords rs path = .ok d) (c p : String) :
    netAt d.components c p = lastNode rs c p := by
  unfold netAt
  rw [parseRecords_nodeAt rs path d h c p]
  cases lastNode rs c p with
  | none => rfl
  | some n => rfl

theorem parseRecords_netsAt (rs : List String) (path : String) (d : Design)
    (h : parseRecords rs path = .ok d) (nm : String) :
    findAssoc d.nets nm = (lastNet rs nm).map (fun f => ⟨nm, f⟩) := by
  rcases parseRecords_ok rs path d h with ⟨st, hst, rfl⟩
  have hn := parseItemsSt_netsAt rs initState st hst nm
  show findAssoc st.nets nm = _
  rw [hn]
  cases lastNet rs nm with
  | none => rfl
  | some f => rfl

/-! ## Claim C2 -/

/-- Claim C2 as stated is false; this is the counterexample: the two record
lists are permutations of each other, both parse successfully, and the two
designs' fingerprints differ, because both records assign the same
(component, pin) and the later record wins. -/
theorem claim_c2_counterexample :
    List.Perm ["NODE_NAME\nR1 1\n\n'NET1':", "NODE_NAME\nR1 1\n\n'NET2':"]
      ["NODE_NAME\nR1 1\n\n'NET2':", "NODE_NAME\nR1 1\n\n'NET1':"] ∧
    isOkB (parseRecords ["NODE_NAME\nR1 1\n\n'NET1':", "NODE_NAME\nR1 1\n\n'NET2':"] "a.net")
      = true ∧
    isOkB (parseRecords ["NODE_NAME\nR1 1\n\n'NET2':", "NODE_NAME\nR1 1\n\n'NET1':"] "a.net")
      = true ∧
    designHash (parseRecords ["NODE_NAME\nR1 1\n\n'NET1':", "NODE_NAME\nR1 1\n\n'NET2':"] "a.net")
      ≠ designHash
        (parseRecords ["NODE_NAME\nR1 1\n\n'NET2':", "NODE_NAME\nR1 1\n\n'NET1':"] "a.net") := by
  decide

/-- Claim C2 (amended): for record lists that are permutations of each other,
in which no two records assign different nets to the same flattened
`"<component>.<pin>"` key, the designs built by parsing the two orders have
identical fingerprints. -/
theorem claim_c2_amended (rs rs' : List String) (pa pb : String) (d d' : Design)
    (hperm : List.Perm rs rs') (hnc : noKeyConflictB rs = true)
    (h : parseRecords rs pa = .ok d) (h' : parseRecords rs' pb = .ok d') :
    d.hash = d'.hash := by
  rw [parseRecords_hash rs pa d h, parseRecords_hash rs' pb d' h']
  apply generate_hash_ext
  · exact (parseRecords_wf rs pa d h).1
  · exact (parseRecords_wf rs' pb d' h').1
  · intro c p
    rw [parseRecords_netAt rs pa d h c p, parseRecords_netAt rs' pb d' h' c p]
    exact lastNode_perm rs rs' hperm hnc c p
  · intro c p c' p' n n' hn hn' hkey
    rw [parseRecords_netAt rs pa d h c p] at hn
    rw [parseRecords_netAt rs pa d h c' p'] at hn'
    rcases lastNode_some_mem rs c p hn with ⟨r1, hr1, hit1⟩
    rcases lastNode_some_mem rs c' p' hn' with ⟨r2, hr2, hit2⟩
    exact noKeyConflictB_spec hnc r1 hr1 r2 hr2 c p n c' p' n' hit1 hit2 hkey

/-- Witness for the amended claim C2 at a concrete input: two conflict-free
records parsed in both orders give designs with the same fingerprint. -/
theorem claim_c2_amended_witness :
    List.Perm ["NODE_NAME\nR1 1\n\n'NET1':", "NODE_NAME\nR2 5\n\n'NET2':"]
      ["NODE_NAME\nR2 5\n\n'NET2':", "NODE_NAME\nR1 1\n\n'NET1':"] ∧
    noKeyConflictB ["NODE_NAME\nR1 1\n\n'NET1':", "NODE_NAME\nR2 5\n\n'NET2':"] = true ∧
    parseRecords ["NODE_NAME\nR1 1\n\n'NET1':", "NODE_NAME\nR2 5\n\n'NET2':"] "a.net"
      = .ok ⟨[("R1", [("1", ⟨"R1", "1", "NET1"⟩)]), ("R2", [("5", ⟨"R2", "5", "NET2"⟩)])],
          [], "a.net", "0338ee8b260517f6b7fe590de3ac92ae"⟩ ∧
    parseRecords ["NODE_NAME\nR2 5\n\n'NET2':", "NODE_NAME\nR1 1\n\n'NET1':"] "b.net"
      = .ok ⟨[("R2", [("5", ⟨"R2", "5", "NET2"⟩)]), ("R1", [("1", ⟨"R1", "1", "NET1"⟩)])],
          [], "b.net", "0338ee8b260517f6b7fe590de3ac92ae"⟩ ∧
    (⟨[("R1", [("1", ⟨"R1", "1", "NET1"⟩)]), ("R2", [("5", ⟨"R2", "5", "NET2"⟩)])],
        [], "a.net", "0338ee8b260517f6b7fe590de3ac92ae"⟩ : Design).hash
      = (⟨[("R2", [("5", ⟨"R2", "5", "NET2"⟩)]), ("R1", [("1", ⟨"R1", "1", "NET1"⟩)])],
          [], "b.net", "0338ee8b260517f6b7fe590de3ac92ae"⟩ : Design).hash :=
  ⟨by decide, by decide, by decide, by decide,
    claim_c2_amended
      ["NODE_NAME\nR1 1\n\n'NET1':", "NODE_NAME\nR2 5\n\n'NET2':"]
      ["NODE_NAME\nR2 5\n\n'NET2':", "NODE_NAME\nR1 1\n\n'NET1':"]
      "a.net" "b.net"
      ⟨[("R1", [("1", ⟨"R1", "1", "NET1"⟩)]), ("R2", [("5", ⟨"R2", "5", "NET2"⟩)])],
        [], "a.net", "0338ee8b260517f6b7fe590de3ac92ae"⟩
      ⟨[("R2", [("5", ⟨"R2", "5", "NET2"⟩)]), ("R1", [("1", ⟨"R1", "1", "NET1"⟩)])],
        [], "b.net", "0338ee8b260517f6b7fe590de3ac92ae"⟩
      (by decide) (by decide) (by decide) (by decide)⟩

/-! ## Claim C9 -/

/-- Claim C9: after a successful parse, component keys, pin keys and net
names are each stored at most once (so every (component, pin) pair maps to
exactly one Node and every net name to exactly one Net), the node stored at
(c, p) is the one built from the last record of the input assigning (c, p),
and the net stored under a name is the one built from the last net record
carrying that name (last-write-wins). -/
theorem claim_c9 (rs : List String) (path : String) (d : Design)
    (h : parseRecords rs path = .ok d) :
    (WfComps d.components ∧ (d.nets.map Prod.fst).Nodup) ∧
    (∀ c p, nodeAt d.components c p = (lastNode rs c p).map (fun n => ⟨c, p, n⟩)) ∧
    (∀ nm, findAssoc d.nets nm = (lastNet rs nm).map (fun f => ⟨nm, f⟩)) :=
  ⟨parseRecords_wf rs path d h,
   fun c p => parseRecords_nodeAt rs path d h c p,
   fun nm => parseRecords_netsAt rs path d h nm⟩

/-- Witness for claim C9 at a concrete input with a duplicated (component,
pin) pair and a duplicated net name: the later records win. -/
theorem claim_c9_witness :
    parseRecords ["NODE_NAME\nR1 1\n\n'NET1':", "NODE_NAME\nR1 1\n\n'NET2':",
        "NET_NAME\n'N'\nx\nC_SIGNAL='SIGA'", "NET_NAME\n'N'\nx\nC_SIGNAL='SIGB'"] "p.net"
      = .ok ⟨[("R1", [("1", ⟨"R1", "1", "NET2"⟩)])], [("N", ⟨"N", "SIGB"⟩)], "p.net",
          "bacf6b1e87f63a43c78d58baadd06291"⟩ ∧
    nodeAt [("R1", [("1", (⟨"R1", "1", "NET2"⟩ : Node))])] "R1" "1"
      = some ⟨"R1", "1", "NET2"⟩ ∧
    findAssoc [("N", (⟨"N", "SIGB"⟩ : Net))] "N" = some ⟨"N", "SIGB"⟩ := by
  have h9 := claim_c9 ["NODE_NAME\nR1 1\n\n'NET1':", "NODE_NAME\nR1 1\n\n'NET2':",
      "NET_NAME\n'N'\nx\nC_SIGNAL='SIGA'", "NET_NAME\n'N'\nx\nC_SIGNAL='SIGB'"] "p.net"
    (⟨[("R1", [("1", ⟨"R1", "1", "NET2"⟩)])], [("N", ⟨"N", "SIGB"⟩)], "p.net",
      "bacf6b1e87f63a43c78d58baadd06291"⟩ : Design) (by decide)
  exact ⟨by decide, (h9.2.1 "R1" "1").trans (by decide), (h9.2.2 "N").trans (by decide)⟩

/-! ## Claim C3 -/

theorem orderedInsert_rel_congr {α : Type} (r1 r2 : α → α → Prop) [DecidableRel r1]
    [DecidableRel r2] (h : ∀ a b, r1 a b ↔ r2 a b) (a : α) :
    ∀ l, List.orderedInsert r1 a l = List.orderedInsert r2 a l
  | [] => rfl
  | b :: l => by
    rw [List.orderedInsert, List.orderedInsert]
    by_cases hr : r1 a b
    · rw [if_pos hr, if_pos ((h a b).1 hr)]
    · rw [if_neg hr, if_neg (fun hx => hr ((h a b).2 hx)),
        orderedInsert_rel_congr r1 r2 h a l]

theorem insertionSort_rel_congr {α : Type} (r1 r2 : α → α → Prop) [DecidableRel r1]
    [DecidableRel r2] (h : ∀ a b, r1 a b ↔ r2 a b) :
    ∀ l, List.insertionSort r1 l = List.insertionSort r2 l
  | [] => rfl
  | a :: l => by
    rw [List.insertionSort, List.insertionSort, insertionSort_rel_congr r1 r2 h l,
      orderedInsert_rel_congr r1 r2 h a _]

theorem hashFeed_eq_specFeed (comps : List (String × List (String × Node))) :
    hashFeed comps = specFeed comps := by
  unfold hashFeed specFeed
  have hkeys : List.insertionSort pyStrLe ((node_flat comps).map Prod.fst)
      = List.insertionSort specKeyLe (specFlatKeys comps) := by
    rw [insertionSort_rel_congr specKeyLe pyStrLe
      (fun a b => (pyStrLe_iff_lexLeN a b).symm) (specFlatKeys comps)]
    refine List.eq_of_perm_of_sorted ?_ (List.sorted_insertionSort _ _)
      (List.sorted_insertionSort _ _)
    refine (List.perm_insertionSort _ _).trans (.trans ?_ (List.perm_insertionSort _ _).symm)
    refine (List.perm_ext_iff_of_nodup (nodup_keys_node_flat comps) (List.nodup_dedup _)).2 ?_
    intro x
    rw [List.mem_dedup]
    exact mem_keys_node_flat comps x
  rw [hkeys]
  apply List.flatMap_congr
  intro k _
  rw [findAssoc_node_flat]
  rfl

/-- Claim C3: the cached fingerprint of every parsed design equals the
hexadecimal MD5 digest of the spec-described byte feed: flatten the
components map to `"<component>.<pin>"` keys, sort them in ordinary
codepoint-lexicographic order, and feed each key immediately followed by
its associated net name, with no separators. -/
theorem claim_c3 (rs : List String) (path : String) (d : Design)
    (h : parseRecords rs path = .ok d) :
    d.hash = md5Hex (specFeed d.components) := by
  rw [parseRecords_hash rs path d h]
  unfold generate_hash
  rw [hashFeed_eq_specFeed]

/-- Witness for claim C3 at a concrete parsed design. -/
theorem claim_c3_witness :
    parseRecords ["NODE_NAME\nR1 1\n\n'NET1':"] "a.net"
      = .ok ⟨[("R1", [("1", ⟨"R1", "1", "NET1"⟩)])], [], "a.net",
          "3b1d56158b0cd3f04d704c8266a79bae"⟩ ∧
    (⟨[("R1", [("1", ⟨"R1", "1", "NET1"⟩)])], [], "a.net",
        "3b1d56158b0cd3f04d704c8266a79bae"⟩ : Design).hash
      = md5Hex (specFeed (⟨[("R1", [("1", ⟨"R1", "1", "NET1"⟩)])], [], "a.net",
          "3b1d56158b0cd3f04d704c8266a79bae"⟩ : Design).components) :=
  ⟨by decide,
    claim_c3 ["NODE_NAME\nR1 1\n\n'NET1':"] "a.net"
      ⟨[("R1", [("1", ⟨"R1", "1", "NET1"⟩)])], [], "a.net",
        "3b1d56158b0cd3f04d704c8266a79bae"⟩ (by decide)⟩

/-! ## Claim C4 -/

theorem mem_allTriples_iff (comps : List (String × List (String × Node)))
    (hw : WfComps comps) (c p n : String) :
    (c, p, n) ∈ allTriples comps ↔ netAt comps c p = some n := by
  constructor
  · intro h
    rcases List.mem_flatMap.1 h with ⟨e, he, hm⟩
    rcases List.mem_map.1 hm with ⟨pe, hpe, heq⟩
    simp only [Prod.mk.injEq] at heq
    obtain ⟨h1, h2, h3⟩ := heq
    subst h1
    subst h2
    unfold netAt
    rw [netAt_of_entry comps hw he hpe]
    rw [← h3]
    rfl
  · intro h
    unfold netAt at h
    cases hnd : nodeAt comps c p with
    | none =>
      rw [hnd] at h
      cases h
    | some nd =>
      rw [hnd] at h
      obtain rfl : nd.net = n := by simpa using h
      rcases entry_of_nodeAt hnd with ⟨pins, h1, h2⟩
      exact List.mem_flatMap.2 ⟨(c, pins), h1, List.mem_map.2 ⟨(p, nd), h2, rfl⟩⟩

theorem sameAssocB_netAt (c1 c2 : List (String × List (String × Node)))
    (hw1 : WfComps c1) (hw2 : WfComps c2) (h : sameAssocB c1 c2 = true) :
    ∀ c p, netAt c1 c p = netAt c2 c p := by
  unfold sameAssocB at h
  rw [Bool.and_eq_true] at h
  obtain ⟨h12, h21⟩ := h
  intro c p
  cases hn1 : netAt c1 c p with
  | some n =>
    have ht : (c, p, n) ∈ allTriples c2 :=
      of_decide_eq_true ((List.all_eq_true.1 h12) _ ((mem_allTriples_iff c1 hw1 c p n).2 hn1))
    rw [(mem_allTriples_iff c2 hw2 c p n).1 ht]
  | none =>
    cases hn2 : netAt c2 c p with
    | none => rfl
    | some n =>
      have ht : (c, p, n) ∈ allTriples c1 :=
        of_decide_eq_true ((List.all_eq_true.1 h21) _ ((mem_allTriples_iff c2 hw2 c p n).2 hn2))
      have := (mem_allTriples_iff c1 hw1 c p n).1 ht
      rw [hn1] at this
      cases this

theorem noFlatConflictB_netAt (comps : List (String × List (String × Node)))
    (hw : WfComps comps) (h : noFlatConflictB comps = true) :
    ∀ c p c' p' n n', netAt comps c p = some n → netAt comps c' p' = some n' →
      c ++ "." ++ p = c' ++ "." ++ p' → n = n' := by
  intro c p c' p' n n' hn hn' hk
  have t1 := (mem_allTriples_iff comps hw c p n).2 hn
  have t2 := (mem_allTriples_iff comps hw c' p' n').2 hn'
  unfold noFlatConflictB at h
  have h1 := (List.all_eq_true.1 h) _ t1
  have h2 := (List.all_eq_true.1 h1) _ t2
  exact of_decide_eq_true h2 hk

/-- Claim C4 as stated is false; this is the counterexample: the two parsed
designs hold exactly the same (component, pin) → net associations — the
pairs ("A.B", "C") → N1 and ("A", "B.C") → N2, stored in different orders —
yet their fingerprints differ, because both pairs flatten to the key
"A.B.C" and the flattening dict is traversal-order dependent. -/
theorem claim_c4_counterexample :
    isOkB (parseRecords ["NODE_NAME\nA.B C\n\n'N1':", "NODE_NAME\nA B.C\n\n'N2':"] "a.net")
      = true ∧
    isOkB (parseRecords ["NODE_NAME\nA B.C\n\n'N2':", "NODE_NAME\nA.B C\n\n'N1':"] "b.net")
      = true ∧
    sameAssocB
      (designComps (parseRecords ["NODE_NAME\nA.B C\n\n'N1':", "NODE_NAME\nA B.C\n\n'N2':"]
        "a.net"))
      (designComps (parseRecords ["NODE_NAME\nA B.C\n\n'N2':", "NODE_NAME\nA.B C\n\n'N1':"]
        "b.net")) = true ∧
    designHash (parseRecords ["NODE_NAME\nA.B C\n\n'N1':", "NODE_NAME\nA B.C\n\n'N2':"] "a.net")
      ≠ designHash (parseRecords ["NODE_NAME\nA B.C\n\n'N2':", "NODE_NAME\nA.B C\n\n'N1':"]
        "b.net") := by
  decide

/-- Claim C4 (amended): for two parsed designs holding exactly the same
(component, pin) → net associations, provided additionally that no two
stored associations put different nets under the same flattened
`"<component>.<pin>"` key, the fingerprints are equal regardless of the
nets maps; and for two parsed designs with structurally identical
components maps the fingerprints are equal whatever their nets maps hold
(in particular changing only a Net's `full_signal_name` never changes the
fingerprint). -/
theorem claim_c4_amended :
    (∀ rs rs' pa pb (d d' : Design), parseRecords rs pa = .ok d →
      parseRecords rs' pb = .ok d' → sameAssocB d.components d'.components = true →
      noFlatConflictB d.components = true → d.hash = d'.hash) ∧
    (∀ rs rs' pa pb (d d' : Design), parseRecords rs pa = .ok d →
      parseRecords rs' pb = .ok d' → d.components = d'.components → d.hash = d'.hash) := by
  constructor
  · intro rs rs' pa pb d d' h h' hsame hnc
    rw [parseRecords_hash _ _ _ h, parseRecords_hash _ _ _ h']
    exact generate_hash_ext _ _ (parseRecords_wf _ _ _ h).1 (parseRecords_wf _ _ _ h').1
      (sameAssocB_netAt _ _ (parseRecords_wf _ _ _ h).1 (parseRecords_wf _ _ _ h').1 hsame)
      (noFlatConflictB_netAt _ (parseRecords_wf _ _ _ h).1 hnc)
  · intro rs rs' pa pb d d' h h' hcomp
    rw [parseRecords_hash _ _ _ h, parseRecords_hash _ _ _ h', hcomp]

/-- Witness for the amended claim C4 at a concrete input: two designs with
the same associations but different nets maps (one parsed a NET_NAME
record, the other did not) have the same fingerprint. -/
theorem claim_c4_amended_witness :
    parseRecords ["NODE_NAME\nR1 1\n\n'NET1':"] "a.net"
      = .ok ⟨[("R1", [("1", ⟨"R1", "1", "NET1"⟩)])], [], "a.net",
          "3b1d56158b0cd3f04d704c8266a79bae"⟩ ∧
    parseRecords ["NODE_NAME\nR1 1\n\n'NET1':", "NET_NAME\n'NET1'\nx\nC_SIGNAL='SIG'"] "b.net"
      = .ok ⟨[("R1", [("1", ⟨"R1", "1", "NET1"⟩)])], [("NET1", ⟨"NET1", "SIG"⟩)], "b.net",
          "3b1d56158b0cd3f04d704c8266a79bae"⟩ ∧
    sameAssocB [("R1", [("1", (⟨"R1", "1", "NET1"⟩ : Node))])]
      [("R1", [("1", (⟨"R1", "1", "NET1"⟩ : Node))])] = true ∧
    noFlatConflictB [("R1", [("1", (⟨"R1", "1", "NET1"⟩ : Node))])] = true ∧
    (⟨[("R1", [("1", ⟨"R1", "1", "NET1"⟩)])], [], "a.net",
        "3b1d56158b0cd3f04d704c8266a79bae"⟩ : Design).hash
      = (⟨[("R1", [("1", ⟨"R1", "1", "NET1"⟩)])], [("NET1", ⟨"NET1", "SIG"⟩)], "b.net",
          "3b1d56158b0cd3f04d704c8266a79bae"⟩ : Design).hash :=
  ⟨by decide, by decide, by decide, by decide,
    claim_c4_amended.1 ["NODE_NAME\nR1 1\n\n'NET1':"]
      ["NODE_NAME\nR1 1\n\n'NET1':", "NET_NAME\n'NET1'\nx\nC_SIGNAL='SIG'"] "a.net" "b.net"
      ⟨[("R1", [("1", ⟨"R1", "1", "NET1"⟩)])], [], "a.net",
        "3b1d56158b0cd3f04d704c8266a79bae"⟩
      ⟨[("R1", [("1", ⟨"R1", "1", "NET1"⟩)])], [("NET1", ⟨"NET1", "SIG"⟩)], "b.net",
        "3b1d56158b0cd3f04d704c8266a79bae"⟩
      (by decide) (by decide) (by decide) (by decide)⟩

/-! ## Claim C1 -/

/-- Claim C1: for every pair of parsed designs and every report path,
`compare` fails with `NameError` on the unbound name `reportpath` before
producing any report output, and so never returns a difference count; and
even if `reportpath` were bound as a local name, the header lines' call to
`self.hash()` would fail with `AttributeError` because a `NetCmp` instance
has no `hash` attribute. -/
theorem claim_c1 :
    (∀ (a b : Design) (report_path : String),
      NetCmp.compare a b report_path = .error (.nameError "reportpath")) ∧
    "hash" ∉ netCmpAttrNames ∧
    (∀ a b : Design, compareExec ("reportpath" :: compareLocalNames) a b
      = .error (.attributeError "hash")) := by
  refine ⟨fun a b report_path => ?_, by decide, fun a b => ?_⟩
  · show compareExec compareLocalNames a b = _
    unfold compareExec
    rw [if_neg (by decide)]
  · unfold compareExec
    rw [if_pos (by decide), if_neg (by decide)]

/-! ## Claim C10 -/

/-- Claim C10: the second line of the report `compare`'s body writes is
`B: <fingerprint>, (<B.netlistpath>)` where the fingerprint is design A's
cached fingerprint, not B's: the line always carries `a.hash`, and at
designs with distinct fingerprints it differs from the B-fingerprint form. -/
theorem claim_c10 :
    (∀ a b : Design, (compareReport a b).1[1]?
      = some ("B: " ++ a.hash ++ ", (" ++ b.netlistpath ++ ")")) ∧
    ((compareReport (⟨[], [], "a.net", "hashA"⟩ : Design)
        (⟨[], [], "b.net", "hashB"⟩ : Design)).1[1]?
      ≠ some ("B: " ++ (⟨[], [], "b.net", "hashB"⟩ : Design).hash ++ ", ("
          ++ (⟨[], [], "b.net", "hashB"⟩ : Design).netlistpath ++ ")")) := by
  refine ⟨fun a b => rfl, by decide⟩

/-! ## Claim C7 -/

/-- Claim C7: with design A built from the single record
`NODE_NAME` / `R1 1` / (blank) / `'NET1':` and design B the analogous
design mapping R1 pin 1 to NET2, the report body writes exactly one diff
line, exactly `000, R1.1, NET DIFF, NET1, NET2`, followed by the footer
`1 differences found`, and the difference count returned is 1 (the two
header lines both carry A's fingerprint, per claim C10). -/
theorem claim_c7 :
    parseDesign "NODE_NAME\nR1 1\n\n'NET1':" "a.net"
      = .ok ⟨[("R1", [("1", ⟨"R1", "1", "NET1"⟩)])], [], "a.net",
          "3b1d56158b0cd3f04d704c8266a79bae"⟩ ∧
    parseDesign "NODE_NAME\nR1 1\n\n'NET2':" "b.net"
      = .ok ⟨[("R1", [("1", ⟨"R1", "1", "NET2"⟩)])], [], "b.net",
          "bacf6b1e87f63a43c78d58baadd06291"⟩ ∧
    compareReport
      ⟨[("R1", [("1", ⟨"R1", "1", "NET1"⟩)])], [], "a.net",
        "3b1d56158b0cd3f04d704c8266a79bae"⟩
      ⟨[("R1", [("1", ⟨"R1", "1", "NET2"⟩)])], [], "b.net",
        "bacf6b1e87f63a43c78d58baadd06291"⟩
      = (["A: 3b1d56158b0cd3f04d704c8266a79bae, (a.net)",
          "B: 3b1d56158b0cd3f04d704c8266a79bae, (b.net)",
          "--------------------------------",
          "INDEX, REF, DIFF, A, B",
          "000, R1.1, NET DIFF, NET1, NET2",
          "--------------------------------",
          "1 differences found"], 1) := by
  refine ⟨by decide, by decide, by decide⟩

/-! ## Claim C8 -/

theorem diffPayloads_self (d : Design) (hw : WfComps d.components) :
    diffPayloads d d = [] := by
  unfold diffPayloads
  rw [List.append_eq_nil]
  constructor
  · rw [List.flatMap_eq_nil_iff]
    intro e he
    rw [findAssoc_of_mem_nodup hw.1 (by simpa using he)]
    show e.2.flatMap _ = []
    rw [List.flatMap_eq_nil_iff]
    intro pe hpe
    rw [findAssoc_of_mem_nodup (hw.2 e he) (by simpa using hpe)]
    show (if pe.2.net ≠ pe.2.net then _ else []) = []
    simp
  · rw [List.filterMap_eq_nil_iff]
    intro c hc
    have hck : containsKey d.components c = true := (mem_keys_iff_contains _ _).1 hc
    simp [hck]

/-- Claim C8: comparing a parsed design against itself emits zero diff
lines, writes the footer `0 differences found`, and returns 0. -/
theorem claim_c8 (rs : List String) (path : String) (d : Design)
    (h : parseRecords rs path = .ok d) :
    compareReport d d =
      (["A: " ++ d.hash ++ ", (" ++ d.netlistpath ++ ")",
        "B: " ++ d.hash ++ ", (" ++ d.netlistpath ++ ")",
        dashesLine,
        "INDEX, REF, DIFF, A, B",
        dashesLine,
        "0 differences found"], 0) := by
  have hpl := diffPayloads_self d (parseRecords_wf rs path d h).1
  unfold compareReport
  rw [hpl]
  rfl

/-- Witness for claim C8 at a concrete parsed design. -/
theorem claim_c8_witness :
    parseRecords ["NODE_NAME\nR1 1\n\n'NET1':"] "a.net"
      = .ok ⟨[("R1", [("1", ⟨"R1", "1", "NET1"⟩)])], [], "a.net",
          "3b1d56158b0cd3f04d704c8266a79bae"⟩ ∧
    compareReport
      ⟨[("R1", [("1", ⟨"R1", "1", "NET1"⟩)])], [], "a.net",
        "3b1d56158b0cd3f04d704c8266a79bae"⟩
      ⟨[("R1", [("1", ⟨"R1", "1", "NET1"⟩)])], [], "a.net",
        "3b1d56158b0cd3f04d704c8266a79bae"⟩
      = (["A: 3b1d56158b0cd3f04d704c8266a79bae, (a.net)",
          "B: 3b1d56158b0cd3f04d704c8266a79bae, (a.net)",
          "--------------------------------",
          "INDEX, REF, DIFF, A, B",
          "--------------------------------",
          "0 differences found"], 0) :=
  ⟨by decide,
    claim_c8 ["NODE_NAME\nR1 1\n\n'NET1':"] "a.net"
      ⟨[("R1", [("1", ⟨"R1", "1", "NET1"⟩)])], [], "a.net",
        "3b1d56158b0cd3f04d704c8266a79bae"⟩ (by decide)⟩

/-! ## Claim C6 -/

theorem ne_of_findAssoc_none {α : Type} {m : List (String × α)} {k : String}
    (h : findAssoc m k = none) {pe : String × α} (hm : pe ∈ m) : pe.1 ≠ k := by
  intro hx
  obtain ⟨v, hv⟩ := findAssoc_isSome_of_contains ((containsKey_iff m k).2 ⟨pe, hm, hx⟩)
  rw [h] at hv
  cases hv

/-- Claim C6: a pin present only on B's side of a shared component is never
consulted: storing any extra pin that is absent from A's copy into B's copy
of a component present in both designs leaves the whole report and the
returned count unchanged (only A→B pin presence is checked); consequently
the two comparison directions can return different totals, as the second
conjunct exhibits. -/
theorem claim_c6 :
    (∀ (a b : Design) (c p : String) (nd : Node),
      (a.components.map Prod.fst).Nodup →
      containsKey a.components c = true →
      containsKey b.components c = true →
      netAt a.components c p = none →
      compareReport a (withPinInserted b c p nd) = compareReport a b) ∧
    ((compareReport
        (⟨[("C1", [("1", ⟨"C1", "1", "N1"⟩), ("2", ⟨"C1", "2", "N2"⟩)])], [], "a.net", ""⟩ :
          Design)
        (⟨[("C1", [("1", ⟨"C1", "1", "N1"⟩)])], [], "b.net", ""⟩ : Design)).2
      ≠ (compareReport
          (⟨[("C1", [("1", ⟨"C1", "1", "N1"⟩)])], [], "b.net", ""⟩ : Design)
          (⟨[("C1", [("1", ⟨"C1", "1", "N1"⟩), ("2", ⟨"C1", "2", "N2"⟩)])], [], "a.net", ""⟩ :
            Design)).2) := by
  constructor
  · intro a b c p nd hwa hca hcb hnet
    have hpay : diffPayloads a (withPinInserted b c p nd) = diffPayloads a b := by
      unfold diffPayloads withPinInserted
      congr 1
      · apply List.flatMap_congr
        intro e he
        show (match findAssoc (updateAssoc b.components c
            (fun pins => insertAssoc pins p nd)) e.1 with
          | some bpins => e.2.flatMap (fun pe =>
              match findAssoc bpins pe.1 with
              | some bnode =>
                if pe.2.net ≠ bnode.net then
                  [e.1 ++ "." ++ pe.1 ++ ", NET DIFF, " ++ pe.2.net ++ ", " ++ bnode.net]
                else []
              | none => [e.1 ++ ", COMP PIN MISSING, " ++ pe.1 ++ ", NONE"])
          | none => [e.1 ++ ", COMP MISSING, " ++ e.1 ++ ", NONE"]) = _
        rw [findAssoc_updateAssoc]
        by_cases hec : e.1 = c
        · rw [if_pos hec]
          obtain ⟨bpins, hbp⟩ := findAssoc_isSome_of_contains hcb
          rw [hec, hbp]
          show e.2.flatMap _ = _
          have hfa : findAssoc a.components c = some e.2 := by
            rw [← hec]
            exact findAssoc_of_mem_nodup hwa (by simpa using he)
          have hfp : findAssoc e.2 p = none := by
            unfold netAt nodeAt at hnet
            rw [hfa] at hnet
            simp only at hnet
            cases hfp' : findAssoc e.2 p with
            | none => rfl
            | some nd' =>
              rw [hfp'] at hnet
              cases hnet
          apply List.flatMap_congr
          intro pe hpe
          show (match findAssoc (insertAssoc bpins p nd) pe.1 with
            | some bnode =>
              if pe.2.net ≠ bnode.net then
                [c ++ "." ++ pe.1 ++ ", NET DIFF, " ++ pe.2.net ++ ", " ++ bnode.net]
              else []
            | none => [c ++ ", COMP PIN MISSING, " ++ pe.1 ++ ", NONE"]) = _
          rw [findAssoc_insertAssoc, if_neg (ne_of_findAssoc_none hfp hpe)]
        · rw [if_neg hec]
      · show (List.map Prod.fst (updateAssoc b.components c
            (fun pins => insertAssoc pins p nd))).filterMap _ = _
        rw [keys_updateAssoc]
    unfold compareReport
    rw [hpay]
    rfl
  · decide

/-- Witness for claim C6 at a concrete input: giving B an extra pin "2" in
the shared component "C1" (absent from A's copy) leaves the report of
comparing A against B unchanged. -/
theorem claim_c6_witness :
    ((([("C1", [("1", (⟨"C1", "1", "N1"⟩ : Node))])]).map Prod.fst).Nodup ∧
     containsKey [("C1", [("1", (⟨"C1", "1", "N1"⟩ : Node))])] "C1" = true ∧
     netAt [("C1", [("1", (⟨"C1", "1", "N1"⟩ : Node))])] "C1" "2" = none) ∧
    compareReport (⟨[("C1", [("1", ⟨"C1", "1", "N1"⟩)])], [], "a.net", "h"⟩ : Design)
      (withPinInserted (⟨[("C1", [("1", ⟨"C1", "1", "N1"⟩)])], [], "b.net", "h"⟩ : Design)
        "C1" "2" ⟨"C1", "2", "N2"⟩)
      = compareReport (⟨[("C1", [("1", ⟨"C1", "1", "N1"⟩)])], [], "a.net", "h"⟩ : Design)
        (⟨[("C1", [("1", ⟨"C1", "1", "N1"⟩)])], [], "b.net", "h"⟩ : Design) :=
  ⟨⟨by decide, by decide, by decide⟩,
    claim_c6.1 (⟨[("C1", [("1", ⟨"C1", "1", "N1"⟩)])], [], "a.net", "h"⟩ : Design)
      (⟨[("C1", [("1", ⟨"C1", "1", "N1"⟩)])], [], "b.net", "h"⟩ : Design) "C1" "2"
      ⟨"C1", "2", "N2"⟩ (by decide) (by decide) (by decide) (by decide)⟩

/-! ## Claim C5 -/

/-- Claim C5 as stated is false; this is the counterexample: the line at
index 1 of this record, `"R1  1"`, consists of exactly two
whitespace-separated tokens, and the line at index 3 exists, yet parse
raises an unhandled error (Python's `ValueError`) instead of inserting a
Node, because the source splits on every single space character and the
double space yields three parts. -/
theorem claim_c5_counterexample :
    pySplitWhitespace "R1  1" = ["R1", "1"] ∧
    (["NODE_NAME", "R1  1", "", "'N1':"] : List String).length = 4 ∧
    containsSubstr "NODE_NAME" "NODE_NAME" = true ∧
    parseClassify initState ["NODE_NAME", "R1  1", "", "'N1':"] = .error .valueError := by
  decide

/-- Claim C5 (amended): for every tokenized record whose first line contains
`NODE_NAME`: if splitting line index 1 at every single space character
yields exactly two tokens (empty tokens counted) and line index 3 exists,
parse extracts those tokens as component and pin and inserts a Node at
`components[component][pin]`; if that split does not yield exactly two
tokens, or the record has no line at index 3, parse raises an unhandled
indexing/splitting error, aborting the load. -/
theorem claim_c5_amended (st : ParseState) (i : List String) (hne : i ≠ [])
    (hnode : containsSubstr (i.getD 0 "") "NODE_NAME" = true) :
    ((4 ≤ i.length ∧ (pySplitOnChar (i.getD 1 "") ' ').length = 2) →
      parseClassify st i = .ok { st with components := (insertNode st.components
        ((pySplitOnChar (i.getD 1 "") ' ').getD 0 "")
        ((pySplitOnChar (i.getD 1 "") ' ').getD 1 "")
        ⟨(pySplitOnChar (i.getD 1 "") ' ').getD 0 "",
          (pySplitOnChar (i.getD 1 "") ' ').getD 1 "", stripNetChars (i.getD 3 "")⟩) }) ∧
    ((i.length < 4 ∨ (pySplitOnChar (i.getD 1 "") ' ').length ≠ 2) →
      ∃ e, parseClassify st i = .error e) := by
  cases i with
  | nil => exact absurd rfl hne
  | cons l0 tl =>
    have hn0 : containsSubstr l0 "NODE_NAME" = true := hnode
    cases tl with
    | nil =>
      constructor
      · rintro ⟨h4, _⟩
        simp at h4
      · intro _
        exact ⟨.indexError, by simp [parseClassify, hn0]⟩
    | cons l1 tl2 =>
      by_cases hp : (pySplitOnChar l1 ' ').length = 2
      · cases tl2 with
        | nil =>
          constructor
          · rintro ⟨h4, _⟩
            simp at h4
          · intro _
            exact ⟨.indexError, by simp [parseClassify, hn0, hp]⟩
        | cons l2 tl3 =>
          cases tl3 with
          | nil =>
            constructor
            · rintro ⟨h4, _⟩
              simp at h4
            · intro _
              exact ⟨.indexError, by simp [parseClassify, hn0, hp]⟩
          | cons l3 tl4 =>
            constructor
            · intro _
              simp [parseClassify, hn0, hp]
            · intro hor
              rcases hor with h4 | hsplit
              · exfalso
                simp only [List.length_cons] at h4
                omega
              · exact absurd hp hsplit
      · constructor
        · rintro ⟨_, h2⟩
          exact absurd h2 hp
        · intro _
          exact ⟨.valueError, by simp [parseClassify, hn0, hp]⟩

/-- Witness for the amended claim C5 at concrete records: a well-shaped
node record is inserted, and a record with a missing line at index 3 makes
parse fail. -/
theorem claim_c5_amended_witness :
    (["NODE_NAME", "R1 1", "", "'N1':"] : List String) ≠ [] ∧
    containsSubstr ((["NODE_NAME", "R1 1", "", "'N1':"] : List String).getD 0 "")
      "NODE_NAME" = true ∧
    (4 ≤ (["NODE_NAME", "R1 1", "", "'N1':"] : List String).length ∧
      (pySplitOnChar ((["NODE_NAME", "R1 1", "", "'N1':"] : List String).getD 1 "") ' ').length
        = 2) ∧
    parseClassify initState ["NODE_NAME", "R1 1", "", "'N1':"]
      = .ok { initState with components := (insertNode initState.components
          "R1" "1" ⟨"R1", "1", "N1"⟩) } := by
  refine ⟨by decide, by decide, by decide, ?_⟩
  have h := (claim_c5_amended initState ["NODE_NAME", "R1 1", "", "'N1':"]
    (by decide) (by decide)).1 (by decide)
  exact h.trans (by decide)
